import Mathlib

/-!
Verification of the hospinet temporal-network library.

This file gives a shallow embedding of the core of the `dwu0042/hospinet`
repository: the `TemporalNetwork` data structure (`hospinet/temporal_network.py`),
its constructors `add_edge` and `from_presence`, the static projection
`to_static`, the graphml node-name round trip, the snapshot / time-series
engine (`tempest/basic_temporal_analysis.py`), and the data-cleaning routines
(`tempest/cleaner.py`).  Python dictionaries become association lists, polars
dataframes become lists of typed rows (plus an explicit column-name layer
where column absence matters), and fallible code returns `Except`/`Option`.
-/

namespace Hospinet

/-! ### Generic helpers: stable sort, string order, association lists, ranges -/

/-- Stable insertion of `a` in front of the first element not below it. -/
def insertLe {α : Type} (le : α → α → Bool) (a : α) : List α → List α
  | [] => [a]
  | b :: l => if le a b then a :: b :: l else b :: insertLe le a l

/-- Stable ascending insertion sort, modelling `DataFrame.sort` / `sorted`. -/
def sortLe {α : Type} (le : α → α → Bool) : List α → List α
  | [] => []
  | a :: l => insertLe le a (sortLe le l)

theorem insertLe_perm {α : Type} (le : α → α → Bool) (a : α) (l : List α) :
    List.Perm (insertLe le a l) (a :: l) := by
  induction l with
  | nil => rfl
  | cons b l ih =>
    by_cases h : le a b = true
    · simp [insertLe, h]
    · simp only [insertLe, h]
      exact ((ih.cons b).trans (List.Perm.swap a b l))

theorem sortLe_perm {α : Type} (le : α → α → Bool) (l : List α) :
    List.Perm (sortLe le l) l := by
  induction l with
  | nil => rfl
  | cons a l ih => exact (insertLe_perm le a (sortLe le l)).trans (ih.cons a)

theorem mem_insertLe {α : Type} {le : α → α → Bool} {a x : α} {l : List α} :
    x ∈ insertLe le a l ↔ x = a ∨ x ∈ l := by
  rw [(insertLe_perm le a l).mem_iff, List.mem_cons]

theorem insertLe_pairwise {α : Type} {le : α → α → Bool}
    (htot : ∀ a b, le a b = true ∨ le b a = true)
    (htrans : ∀ a b c, le a b = true → le b c = true → le a c = true)
    {a : α} {l : List α} (h : l.Pairwise (fun x y => le x y = true)) :
    (insertLe le a l).Pairwise (fun x y => le x y = true) := by
  induction l with
  | nil => simp [insertLe]
  | cons b l ih =>
    rcases List.pairwise_cons.mp h with ⟨hb, hl⟩
    by_cases hab : le a b = true
    · simp only [insertLe, hab, if_true]
      refine List.pairwise_cons.mpr ⟨?_, h⟩
      intro x hx
      rcases List.mem_cons.mp hx with rfl | hx
      · exact hab
      · exact htrans a b x hab (hb x hx)
    · simp only [insertLe, hab, if_false]
      refine List.pairwise_cons.mpr ⟨?_, ih hl⟩
      intro x hx
      rcases mem_insertLe.mp hx with rfl | hx
      · exact (htot x b).resolve_left hab
      · exact hb x hx

theorem sortLe_pairwise {α : Type} {le : α → α → Bool}
    (htot : ∀ a b, le a b = true ∨ le b a = true)
    (htrans : ∀ a b c, le a b = true → le b c = true → le a c = true)
    (l : List α) : (sortLe le l).Pairwise (fun x y => le x y = true) := by
  induction l with
  | nil => simp [sortLe]
  | cons a l ih => exact insertLe_pairwise htot htrans ih

/-- Lexicographic strict order on character lists: Python's string
comparison, used by `DataFrame.sort` on the string-typed `sID` column. -/
def charListLT : List Char → List Char → Bool
  | [], [] => false
  | [], _ :: _ => true
  | _ :: _, [] => false
  | a :: as, b :: bs => if a < b then true else if b < a then false else charListLT as bs

def strLT (a b : String) : Bool := charListLT a.data b.data

theorem charListLT_irrefl (x : List Char) : charListLT x x = false := by
  induction x with
  | nil => rfl
  | cons a as ih => simp [charListLT, ih]

theorem charListLT_trans : ∀ {x y z : List Char},
    charListLT x y = true → charListLT y z = true → charListLT x z = true
  | [], _, _ :: _, _, _ => rfl
  | [], [], _, h, _ => by simp [charListLT] at h
  | [], _ :: _, [], _, h2 => by simp [charListLT] at h2
  | _ :: _, [], _, h, _ => by simp [charListLT] at h
  | _ :: _, _ :: _, [], _, h2 => by simp [charListLT] at h2
  | a :: as, b :: bs, c :: cs, h1, h2 => by
    simp only [charListLT] at h1 h2 ⊢
    by_cases hab : a < b
    · by_cases hbc : b < c
      · simp [lt_trans hab hbc]
      · by_cases hcb : c < b
        · simp [hbc, hcb] at h2
        · have hbceq : b = c := le_antisymm (not_lt.mp hcb) (not_lt.mp hbc)
          subst hbceq
          simp [hab]
    · by_cases hba : b < a
      · simp [hab, hba] at h1
      · have habeq : a = b := le_antisymm (not_lt.mp hba) (not_lt.mp hab)
        subst habeq
        by_cases hac : a < c
        · simp [hac]
        · by_cases hca : c < a
          · simp [hac, hca] at h2
          · simp only [lt_irrefl, if_false, hac, hca] at h1 h2 ⊢
            exact charListLT_trans h1 h2

theorem charListLT_not_both : ∀ {x y : List Char},
    charListLT x y = false → charListLT y x = false → x = y
  | [], [], _, _ => rfl
  | [], _ :: _, h, _ => by simp [charListLT] at h
  | _ :: _, [], _, h2 => by simp [charListLT] at h2
  | a :: as, b :: bs, h1, h2 => by
    rcases lt_trichotomy a b with hab | hab | hab
    · simp [charListLT, hab] at h1
    · subst hab
      simp only [charListLT, lt_irrefl, if_false] at h1 h2
      rw [charListLT_not_both h1 h2]
    · simp [charListLT, hab] at h2

theorem String.data_injective {s t : String} (h : s.data = t.data) : s = t := by
  cases s; cases t; simp_all

theorem strLT_trans {x y z : String} (h1 : strLT x y = true) (h2 : strLT y z = true) :
    strLT x z = true :=
  charListLT_trans h1 h2

theorem strLT_not_both {x y : String} (h1 : strLT x y = false)
    (h2 : strLT y x = false) : x = y :=
  String.data_injective (charListLT_not_both h1 h2)

theorem strLT_irrefl (x : String) : strLT x x = false := charListLT_irrefl x.data

/-- Dictionary lookup with a default, modelling `dict.get` /
`defaultdict.__getitem__` read access. -/
def lookupD {α β : Type} [DecidableEq α] : List (α × β) → α → β → β
  | [], _, dflt => dflt
  | p :: rest, k, dflt => if p.1 = k then p.2 else lookupD rest k dflt

/-- `dictAdd d k v` models `d[k].add(v)` on a `defaultdict(set)`: the value
`v` is added to the bucket of `k`, creating the bucket if absent. -/
def dictAdd {α β : Type} [DecidableEq α] [DecidableEq β] :
    List (α × List β) → α → β → List (α × List β)
  | [], k, v => [(k, [v])]
  | p :: rest, k, v =>
    if p.1 = k then (p.1, if v ∈ p.2 then p.2 else p.2 ++ [v]) :: rest
    else p :: dictAdd rest k v

/-- `groupPairs l` models `df.group_by(key).all()` followed by
`.list.unique()` on the value column: one entry per distinct key, holding the
distinct values paired with it. -/
def groupPairs {α β : Type} [DecidableEq α] [DecidableEq β] (l : List (α × β)) :
    List (α × List β) :=
  ((l.map Prod.fst).dedup).map
    (fun k => (k, ((l.filter (fun q => decide (q.1 = k))).map Prod.snd).dedup))

def intRangeAux (start step : Int) : Nat → List Int
  | 0 => []
  | n + 1 => start :: intRangeAux (start + step) step n

/-- `intRange start stop step` models `pl.int_ranges(start, stop, step)` for a
positive step: the integers `start, start+step, ...` strictly below `stop`. -/
def intRange (start stop step : Int) : List Int :=
  if 0 < step then intRangeAux start step ((stop - start + step - 1) / step).toNat
  else []

/-! ### The TemporalNetwork data structure (`hospinet/temporal_network.py`)

A node is a `(facility, time)` pair.  The time type is a parameter so the
same structure serves both the ordinary integer-time networks and the
nullable-time networks produced by a degenerate (negative) discretisation,
where polars materialises a null time unit.  Edges carry their `weight`
attribute; `snapshots` and `present` are the two derived indices. -/

structure TemporalNetwork (τ : Type) where
  nodes : List (String × τ)
  edges : List ((String × τ) × (String × τ) × Int)
  snapshots : List (τ × List String)
  present : List (String × List τ)
deriving DecidableEq

abbrev TN := TemporalNetwork Int

def TemporalNetwork.empty (τ : Type) : TemporalNetwork τ := ⟨[], [], [], []⟩

/-- `networkx.DiGraph.add_edge` registers both endpoints as nodes (source
first) if absent. -/
def addNodeIfAbsent {τ : Type} [DecidableEq τ]
    (ns : List (String × τ)) (n : String × τ) : List (String × τ) :=
  if n ∈ ns then ns else ns ++ [n]

/-- `networkx` edge insertion: an existing `(u, v)` edge has its `weight`
attribute replaced, a new edge is appended. -/
def setEdge {τ : Type} [DecidableEq τ] :
    List ((String × τ) × (String × τ) × Int) → (String × τ) → (String × τ) → Int →
      List ((String × τ) × (String × τ) × Int)
  | [], u, v, w => [(u, v, w)]
  | e :: rest, u, v, w =>
    if e.1 = u ∧ e.2.1 = v then (u, v, w) :: rest else e :: setEdge rest u v w

/-- `TemporalNetwork.add_edge`: the inherited `DiGraph.add_edge`, then for
each endpoint `(loc, t)` the updates `snapshots[t].add(loc)` and
`present[loc].add(t)`. -/
def TemporalNetwork.add_edge {τ : Type} [DecidableEq τ]
    (G : TemporalNetwork τ) (u v : String × τ) (w : Int) : TemporalNetwork τ :=
  { nodes := addNodeIfAbsent (addNodeIfAbsent G.nodes u) v
    edges := setEdge G.edges u v w
    snapshots := dictAdd (dictAdd G.snapshots u.2 u.1) v.2 v.1
    present := dictAdd (dictAdd G.present u.1 u.2) v.1 v.2 }

/-- A network built by repeated `add_edge` calls starting from the empty
constructor (`defaultdict` indices start empty). -/
def buildNetwork (es : List ((String × Int) × (String × Int) × Int)) : TN :=
  es.foldl (fun G e => G.add_edge e.1 e.2.1 e.2.2) (TemporalNetwork.empty Int)

/-- `nodes_at_time(t)` returns `self.snapshots[t]` (empty for a fresh key). -/
def TemporalNetwork.nodes_at_time {τ : Type} [DecidableEq τ]
    (G : TemporalNetwork τ) (t : τ) : List String :=
  lookupD G.snapshots t []

/-- `when_present(loc)` returns `self.present[loc]` (empty for a fresh key). -/
def TemporalNetwork.when_present {τ : Type} [DecidableEq τ]
    (G : TemporalNetwork τ) (loc : String) : List τ :=
  lookupD G.present loc []

/-! ### `from_presence` (typed pipeline, integer times)

The polars pipeline of `TemporalNetwork.from_presence`, for inputs inside its
documented domain (integer `Adate`/`Ddate`, `Adate ≤ Ddate`, positive
discretisation), where every `int_ranges` list is non-empty and no null time
units arise. -/

structure StayRow where
  sID : String
  fID : String
  Adate : Int
  Ddate : Int
deriving DecidableEq, Repr

structure PresenceRow where
  sID : String
  fID : String
  Adate : Int
  Ddate : Int
  present : Int
deriving DecidableEq, Repr

/-- One row's `int_ranges(Adate.floordiv(d) * d, Ddate + 1, d)` expansion,
exploded into one `PresenceRow` per generated time unit. -/
def expandRow (discretisation : Int) (r : StayRow) : List PresenceRow :=
  (intRange ((Int.fdiv r.Adate discretisation) * discretisation) (r.Ddate + 1)
      discretisation).map
    (fun p => ⟨r.sID, r.fID, r.Adate, r.Ddate, p⟩)

/-- The `sort(pl.col("Adate"))` comparison on stay rows. -/
def adateLE (a b : StayRow) : Bool := decide (a.Adate ≤ b.Adate)

/-- The `.sort("sID", "present", "Adate")` lexicographic comparison on
presence rows. -/
def presLE (a b : PresenceRow) : Bool :=
  strLT a.sID b.sID ||
    (decide (a.sID = b.sID) &&
      (decide (a.present < b.present) ||
        (decide (a.present = b.present) && decide (a.Adate ≤ b.Adate))))

theorem presLE_total (a b : PresenceRow) : presLE a b = true ∨ presLE b a = true := by
  by_cases h1 : strLT a.sID b.sID = true
  · left; simp [presLE, h1]
  · by_cases h2 : strLT b.sID a.sID = true
    · right; simp [presLE, h2]
    · have hs : a.sID = b.sID :=
        strLT_not_both (Bool.eq_false_iff.mpr h1) (Bool.eq_false_iff.mpr h2)
      simp only [presLE, hs, strLT_irrefl, Bool.false_or, Bool.true_and,
        Bool.or_eq_true, Bool.and_eq_true, decide_eq_true_eq, decide_True]
      omega

theorem presLE_trans (a b c : PresenceRow) (h1 : presLE a b = true)
    (h2 : presLE b c = true) : presLE a c = true := by
  simp only [presLE, Bool.or_eq_true, Bool.and_eq_true, decide_eq_true_eq] at h1 h2 ⊢
  rcases h1 with h1 | ⟨hs1, h1⟩
  · rcases h2 with h2 | ⟨hs2, _⟩
    · exact Or.inl (strLT_trans h1 h2)
    · exact Or.inl (hs2 ▸ h1)
  · rcases h2 with h2 | ⟨hs2, h2⟩
    · exact Or.inl (hs1 ▸ h2)
    · exact Or.inr ⟨hs1.trans hs2, by omega⟩

/-- `presence.sort("Adate")`, the `int_ranges` expansion with `explode`,
then `.sort("sID", "present", "Adate")`. -/
def presenceTable (rows : List StayRow) (discretisation : Int) : List PresenceRow :=
  let sorted1 := sortLe adateLE rows
  let exploded := sorted1.flatMap (expandRow discretisation)
  sortLe presLE exploded

/-- The consecutive-row pairs produced by `shift(1)` together with the filter
`(sID == prev_sID) & (present - prev_present < return_window)`; the first row
is dropped because its shifted `prev_sID` is null. -/
def transitionPairs (presence : List PresenceRow) (returnWindow : Int) :
    List (PresenceRow × PresenceRow) :=
  (presence.zip (presence.drop 1)).filter
    (fun pc => decide (pc.1.sID = pc.2.sID) && decide (pc.2.present - pc.1.present < returnWindow))

/-- The `select("prev_fID", "prev_present", "fID", "present")` projection used
as the `group_by("*")` key. -/
def edgeKey (pc : PresenceRow × PresenceRow) : (String × Int) × (String × Int) :=
  ((pc.1.fID, pc.1.present), (pc.2.fID, pc.2.present))

/-- `group_by("*").len()`: one weighted edge per distinct transition key, the
weight being the number of transitions with that key. -/
def weightedEdges (presence : List PresenceRow) (returnWindow : Int) :
    List ((String × Int) × (String × Int) × Int) :=
  let trans := transitionPairs presence returnWindow
  ((trans.map edgeKey).dedup).map
    (fun k => (k.1, k.2, ((trans.countP (fun pc => decide (edgeKey pc = k)) : Nat) : Int)))

/-- `TemporalNetwork.from_presence`: build the presence table, register every
distinct `(fID, present)` pair as a node (`add_nodes_from`), add the grouped
weighted edges through the overridden `add_edge`
(`add_weighted_edges_from`), then overwrite `snapshots` and `present` with
the two `group_by` projections of the presence table. -/
def TemporalNetwork.from_presence (rows : List StayRow) (discretisation : Int)
    (returnWindow : Int) : TN :=
  let presence := presenceTable rows discretisation
  let nodeList := (presence.map (fun r => (r.fID, r.present))).dedup
  let G0 : TN := { TemporalNetwork.empty Int with nodes := nodeList }
  let G1 := (weightedEdges presence returnWindow).foldl
    (fun G e => G.add_edge e.1 e.2.1 e.2.2) G0
  { G1 with
    snapshots := groupPairs (presence.map (fun r => (r.present, r.fID)))
    present := groupPairs (presence.map (fun r => (r.fID, r.present))) }

/-! ### Characterisation lemmas for the dictionaries and constructors -/

theorem lookupD_map {α β : Type} [DecidableEq α] (keys : List α) (f : α → β)
    (a : α) (d : β) :
    lookupD (keys.map (fun k => (k, f k))) a d = if a ∈ keys then f a else d := by
  induction keys with
  | nil => simp [lookupD]
  | cons k ks ih =>
    simp only [List.map_cons, lookupD]
    by_cases h : k = a
    · subst h; simp
    · have h2 : ¬ a = k := fun hh => h hh.symm
      simp [h, h2, ih, List.mem_cons]

theorem mem_lookupD_groupPairs {α β : Type} [DecidableEq α] [DecidableEq β]
    (l : List (α × β)) (a : α) (b : β) :
    b ∈ lookupD (groupPairs l) a [] ↔ (a, b) ∈ l := by
  unfold groupPairs
  rw [lookupD_map]
  by_cases h : a ∈ (l.map Prod.fst).dedup
  · simp only [h, if_true, List.mem_dedup, List.mem_map, List.mem_filter,
      decide_eq_true_eq]
    constructor
    · rintro ⟨q, ⟨hq, rfl⟩, rfl⟩
      exact hq
    · intro hab
      exact ⟨(a, b), ⟨hab, rfl⟩, rfl⟩
  · simp only [h, if_false, List.not_mem_nil, false_iff]
    intro hab
    exact h (List.mem_dedup.mpr (List.mem_map.mpr ⟨(a, b), hab, rfl⟩))

theorem mem_lookupD_dictAdd {α β : Type} [DecidableEq α] [DecidableEq β]
    (d : List (α × List β)) (k : α) (v : β) (a : α) (b : β) :
    b ∈ lookupD (dictAdd d k v) a [] ↔ (a = k ∧ b = v) ∨ b ∈ lookupD d a [] := by
  induction d with
  | nil =>
    by_cases h : k = a
    · subst h; simp [dictAdd, lookupD]
    · have h2 : ¬ a = k := fun hh => h hh.symm
      simp [dictAdd, lookupD, h, h2]
  | cons p rest ih =>
    obtain ⟨pk, pv⟩ := p
    by_cases hpk : pk = k
    · by_cases hpa : pk = a
      · by_cases hv : v ∈ pv
        · simp only [dictAdd, if_pos hpk, lookupD, if_pos hpa, if_pos hv]
          constructor
          · exact Or.inr
          · rintro (⟨-, rfl⟩ | hb)
            · exact hv
            · exact hb
        · simp only [dictAdd, if_pos hpk, lookupD, if_pos hpa, if_neg hv,
            List.mem_append, List.mem_singleton]
          constructor
          · rintro (hb | rfl)
            · exact Or.inr hb
            · exact Or.inl ⟨hpa.symm.trans hpk, rfl⟩
          · rintro (⟨-, rfl⟩ | hb)
            · exact Or.inr rfl
            · exact Or.inl hb
      · simp only [dictAdd, if_pos hpk, lookupD, if_neg hpa]
        constructor
        · exact Or.inr
        · rintro (⟨rfl, rfl⟩ | hb)
          · exact absurd hpk hpa
          · exact hb
    · by_cases hpa : pk = a
      · simp only [dictAdd, if_neg hpk, lookupD, if_pos hpa]
        constructor
        · exact Or.inr
        · rintro (⟨rfl, rfl⟩ | hb)
          · exact absurd hpa hpk
          · exact hb
      · simp only [dictAdd, if_neg hpk, lookupD, if_neg hpa]
        exact ih

theorem mem_addNodeIfAbsent {τ : Type} [DecidableEq τ]
    {ns : List (String × τ)} {n x : String × τ} :
    x ∈ addNodeIfAbsent ns n ↔ x = n ∨ x ∈ ns := by
  unfold addNodeIfAbsent
  by_cases h : n ∈ ns
  · simp only [h, if_true]
    constructor
    · exact Or.inr
    · rintro (rfl | hx) <;> assumption
  · simp [h, List.mem_append, or_comm]

theorem addNodeIfAbsent_of_mem {τ : Type} [DecidableEq τ]
    {ns : List (String × τ)} {n : String × τ} (h : n ∈ ns) :
    addNodeIfAbsent ns n = ns := by
  simp [addNodeIfAbsent, h]

theorem setEdge_mem {τ : Type} [DecidableEq τ]
    {es : List ((String × τ) × (String × τ) × Int)} {u v : String × τ} {w : Int}
    {e : (String × τ) × (String × τ) × Int} (h : e ∈ setEdge es u v w) :
    e ∈ es ∨ (e.1 = u ∧ e.2.1 = v) := by
  induction es with
  | nil =>
    simp only [setEdge, List.mem_singleton] at h
    subst h; exact Or.inr ⟨rfl, rfl⟩
  | cons p rest ih =>
    by_cases hp : p.1 = u ∧ p.2.1 = v
    · simp only [setEdge, if_pos hp, List.mem_cons] at h
      rcases h with rfl | h
      · exact Or.inr ⟨rfl, rfl⟩
      · exact Or.inl (List.mem_cons_of_mem _ h)
    · simp only [setEdge, if_neg hp, List.mem_cons] at h
      rcases h with rfl | h
      · exact Or.inl (List.mem_cons_self _ _)
      · rcases ih h with h2 | h2
        · exact Or.inl (List.mem_cons_of_mem _ h2)
        · exact Or.inr h2

/-- The consistency property of claim C1: a facility is listed at a time in
the `snapshots` index iff the time is listed for it in the `present` index
iff the pair is a node of the graph. -/
def Consistent (G : TN) : Prop :=
  ∀ f t, (f ∈ G.nodes_at_time t ↔ (f, t) ∈ G.nodes) ∧
    (t ∈ G.when_present f ↔ (f, t) ∈ G.nodes)

theorem add_edge_consistent {G : TN} (h : Consistent G)
    (u v : String × Int) (w : Int) : Consistent (G.add_edge u v w) := by
  intro f t
  have hsnap : (G.add_edge u v w).nodes_at_time t =
      lookupD (dictAdd (dictAdd G.snapshots u.2 u.1) v.2 v.1) t [] := rfl
  have hpres : (G.add_edge u v w).when_present f =
      lookupD (dictAdd (dictAdd G.present u.1 u.2) v.1 v.2) f [] := rfl
  have hn : ∀ x : String × Int, x ∈ (G.add_edge u v w).nodes ↔
      x = v ∨ x = u ∨ x ∈ G.nodes := by
    intro x
    simp [TemporalNetwork.add_edge, mem_addNodeIfAbsent]
  constructor
  · rw [hsnap, hn]
    simp only [mem_lookupD_dictAdd]
    constructor
    · rintro (⟨rfl, rfl⟩ | ⟨rfl, rfl⟩ | hb)
      · exact Or.inl rfl
      · exact Or.inr (Or.inl rfl)
      · exact Or.inr (Or.inr ((h f t).1.mp hb))
    · rintro (rfl | rfl | hb)
      · exact Or.inl ⟨rfl, rfl⟩
      · exact Or.inr (Or.inl ⟨rfl, rfl⟩)
      · exact Or.inr (Or.inr ((h f t).1.mpr hb))
  · rw [hpres, hn]
    simp only [mem_lookupD_dictAdd]
    constructor
    · rintro (⟨rfl, rfl⟩ | ⟨rfl, rfl⟩ | hb)
      · exact Or.inl rfl
      · exact Or.inr (Or.inl rfl)
      · exact Or.inr (Or.inr ((h f t).2.mp hb))
    · rintro (rfl | rfl | hb)
      · exact Or.inl ⟨rfl, rfl⟩
      · exact Or.inr (Or.inl ⟨rfl, rfl⟩)
      · exact Or.inr (Or.inr ((h f t).2.mpr hb))

theorem foldl_add_edge_consistent
    (es : List ((String × Int) × (String × Int) × Int)) :
    ∀ {G : TN}, Consistent G →
      Consistent (es.foldl (fun G e => G.add_edge e.1 e.2.1 e.2.2) G) := by
  induction es with
  | nil => intro G h; exact h
  | cons e rest ih =>
    intro G h
    exact ih (add_edge_consistent h e.1 e.2.1 e.2.2)

theorem empty_consistent : Consistent (TemporalNetwork.empty Int) := by
  intro f t
  simp [TemporalNetwork.nodes_at_time, TemporalNetwork.when_present,
    TemporalNetwork.empty, lookupD]

theorem buildNetwork_consistent
    (es : List ((String × Int) × (String × Int) × Int)) :
    Consistent (buildNetwork es) :=
  foldl_add_edge_consistent es empty_consistent

/-- Every edge produced by `group_by` in `from_presence` joins two rows of
the presence table. -/
theorem weightedEdges_endpoints {presence : List PresenceRow} {rw : Int}
    {e : (String × Int) × (String × Int) × Int} (h : e ∈ weightedEdges presence rw) :
    (∃ r ∈ presence, r.fID = e.1.1 ∧ r.present = e.1.2) ∧
      (∃ r ∈ presence, r.fID = e.2.1.1 ∧ r.present = e.2.1.2) := by
  simp only [weightedEdges] at h
  rcases List.mem_map.mp h with ⟨k, hk, rfl⟩
  rcases List.mem_map.mp (List.mem_dedup.mp hk) with ⟨pc, hpc, rfl⟩
  have hz := (List.mem_filter.mp hpc).1
  have hmem := List.of_mem_zip hz
  exact ⟨⟨pc.1, hmem.1, rfl, rfl⟩, ⟨pc.2, List.mem_of_mem_drop hmem.2, rfl, rfl⟩⟩

theorem foldl_add_edge_nodes
    (es : List ((String × Int) × (String × Int) × Int)) :
    ∀ (G : TN), (∀ e ∈ es, e.1 ∈ G.nodes ∧ e.2.1 ∈ G.nodes) →
      (es.foldl (fun G e => G.add_edge e.1 e.2.1 e.2.2) G).nodes = G.nodes := by
  induction es with
  | nil => intro G _; rfl
  | cons e rest ih =>
    intro G h
    have he := h e (List.mem_cons_self _ _)
    have hnodes : (G.add_edge e.1 e.2.1 e.2.2).nodes = G.nodes := by
      simp only [TemporalNetwork.add_edge]
      rw [addNodeIfAbsent_of_mem he.1, addNodeIfAbsent_of_mem he.2]
    rw [List.foldl_cons, ih _ ?_]
    · exact hnodes
    · intro e2 h2
      rw [hnodes]
      exact h e2 (List.mem_cons_of_mem _ h2)

/-- The node list of `from_presence` is the distinct `(fID, present)`
projection of the presence table; membership characterisation. -/
theorem from_presence_mem_nodes (rows : List StayRow) (d rw : Int) (f : String)
    (t : Int) :
    (f, t) ∈ (TemporalNetwork.from_presence rows d rw).nodes ↔
      ∃ r ∈ presenceTable rows d, r.fID = f ∧ r.present = t := by
  have hnodes : (TemporalNetwork.from_presence rows d rw).nodes =
      ((weightedEdges (presenceTable rows d) rw).foldl
        (fun (G : TN) (e : (String × Int) × (String × Int) × Int) =>
          G.add_edge e.1 e.2.1 e.2.2)
        { TemporalNetwork.empty Int with
          nodes := ((presenceTable rows d).map
            (fun r : PresenceRow => (r.fID, r.present))).dedup }).nodes := rfl
  rw [hnodes, foldl_add_edge_nodes]
  · simp only [List.mem_dedup, List.mem_map]
    constructor
    · rintro ⟨r, hr, heq⟩
      exact ⟨r, hr, congrArg Prod.fst heq, congrArg Prod.snd heq⟩
    · rintro ⟨r, hr, h1, h2⟩
      exact ⟨r, hr, by rw [h1, h2]⟩
  · intro e he
    rcases weightedEdges_endpoints he with ⟨⟨r1, h1, hf1, ht1⟩, ⟨r2, h2, hf2, ht2⟩⟩
    constructor
    · simp only [List.mem_dedup, List.mem_map]
      exact ⟨r1, h1, by rw [hf1, ht1]⟩
    · simp only [List.mem_dedup, List.mem_map]
      exact ⟨r2, h2, by rw [hf2, ht2]⟩

theorem from_presence_nodes_at_time (rows : List StayRow) (d rw : Int)
    (f : String) (t : Int) :
    f ∈ (TemporalNetwork.from_presence rows d rw).nodes_at_time t ↔
      ∃ r ∈ presenceTable rows d, r.fID = f ∧ r.present = t := by
  have h : (TemporalNetwork.from_presence rows d rw).nodes_at_time t =
      lookupD (groupPairs ((presenceTable rows d).map
        (fun r : PresenceRow => (r.present, r.fID)))) t [] := rfl
  rw [h, mem_lookupD_groupPairs]
  simp only [List.mem_map]
  constructor
  · rintro ⟨r, hr, heq⟩
    exact ⟨r, hr, congrArg Prod.snd heq, congrArg Prod.fst heq⟩
  · rintro ⟨r, hr, hf, hp⟩
    exact ⟨r, hr, by rw [hp, hf]⟩

theorem from_presence_when_present (rows : List StayRow) (d rw : Int)
    (f : String) (t : Int) :
    t ∈ (TemporalNetwork.from_presence rows d rw).when_present f ↔
      ∃ r ∈ presenceTable rows d, r.fID = f ∧ r.present = t := by
  have h : (TemporalNetwork.from_presence rows d rw).when_present f =
      lookupD (groupPairs ((presenceTable rows d).map
        (fun r : PresenceRow => (r.fID, r.present)))) f [] := rfl
  rw [h, mem_lookupD_groupPairs]
  simp only [List.mem_map]
  constructor
  · rintro ⟨r, hr, heq⟩
    exact ⟨r, hr, congrArg Prod.fst heq, congrArg Prod.snd heq⟩
  · rintro ⟨r, hr, hf, hp⟩
    exact ⟨r, hr, by rw [hp, hf]⟩

/-! ### Sortedness of the presence table and forward-in-time edges -/

theorem pairwise_zip_drop_one {α : Type} {R : α → α → Prop} :
    ∀ {l : List α}, l.Pairwise R → ∀ p ∈ l.zip (l.drop 1), R p.1 p.2 := by
  intro l
  induction l with
  | nil => intro _ p hp; simp at hp
  | cons a l ih =>
    intro h p hp
    cases l with
    | nil => simp at hp
    | cons b l2 =>
      rw [List.drop_succ_cons, List.drop_zero, List.zip_cons_cons] at hp
      rcases List.mem_cons.mp hp with rfl | hp
      · exact (List.pairwise_cons.mp h).1 b (List.mem_cons_self _ _)
      · exact ih (List.Pairwise.of_cons h) p hp

theorem transitionPairs_mem {presence : List PresenceRow} {rw : Int}
    {pc : PresenceRow × PresenceRow} (h : pc ∈ transitionPairs presence rw) :
    pc ∈ presence.zip (presence.drop 1) ∧ pc.1.sID = pc.2.sID ∧
      pc.2.present - pc.1.present < rw := by
  have h2 := List.mem_filter.mp h
  refine ⟨h2.1, ?_⟩
  have h3 := h2.2
  simp only [Bool.and_eq_true, decide_eq_true_eq] at h3
  exact h3

theorem presenceTable_sorted (rows : List StayRow) (d : Int) :
    (presenceTable rows d).Pairwise (fun x y => presLE x y = true) :=
  sortLe_pairwise presLE_total presLE_trans _

theorem presLE_same_sID {a b : PresenceRow} (h : presLE a b = true)
    (hs : a.sID = b.sID) : a.present ≤ b.present := by
  simp only [presLE, hs, strLT_irrefl, Bool.false_or, eq_self_iff_true,
    decide_True, Bool.true_and, Bool.or_eq_true, Bool.and_eq_true,
    decide_eq_true_eq] at h
  omega

theorem weightedEdges_key {presence : List PresenceRow} {rw : Int}
    {e : (String × Int) × (String × Int) × Int} (h : e ∈ weightedEdges presence rw) :
    ∃ pc ∈ transitionPairs presence rw,
      e.1 = (pc.1.fID, pc.1.present) ∧ e.2.1 = (pc.2.fID, pc.2.present) := by
  simp only [weightedEdges] at h
  rcases List.mem_map.mp h with ⟨k, hk, rfl⟩
  rcases List.mem_map.mp (List.mem_dedup.mp hk) with ⟨pc, hpc, rfl⟩
  exact ⟨pc, hpc, rfl, rfl⟩

theorem foldl_add_edge_edges_mem
    (es : List ((String × Int) × (String × Int) × Int)) :
    ∀ (G : TN) (e : (String × Int) × (String × Int) × Int),
      e ∈ (es.foldl (fun G e => G.add_edge e.1 e.2.1 e.2.2) G).edges →
        e ∈ G.edges ∨ ∃ e2 ∈ es, e.1 = e2.1 ∧ e.2.1 = e2.2.1 := by
  induction es with
  | nil => intro G e h; exact Or.inl h
  | cons e0 rest ih =>
    intro G e h
    rcases ih _ e h with h2 | h2
    · rcases setEdge_mem h2 with h3 | h3
      · exact Or.inl h3
      · exact Or.inr ⟨e0, List.mem_cons_self _ _, h3.1, h3.2⟩
    · rcases h2 with ⟨e2, he2, hkey⟩
      exact Or.inr ⟨e2, List.mem_cons_of_mem _ he2, hkey⟩

theorem from_presence_edges_key (rows : List StayRow) (d rw : Int)
    (e : (String × Int) × (String × Int) × Int)
    (h : e ∈ (TemporalNetwork.from_presence rows d rw).edges) :
    ∃ e2 ∈ weightedEdges (presenceTable rows d) rw,
      e.1 = e2.1 ∧ e.2.1 = e2.2.1 := by
  have hE : (TemporalNetwork.from_presence rows d rw).edges =
      ((weightedEdges (presenceTable rows d) rw).foldl
        (fun (G : TN) (e : (String × Int) × (String × Int) × Int) =>
          G.add_edge e.1 e.2.1 e.2.2)
        { TemporalNetwork.empty Int with
          nodes := ((presenceTable rows d).map
            (fun r : PresenceRow => (r.fID, r.present))).dedup }).edges := rfl
  rw [hE] at h
  rcases foldl_add_edge_edges_mem _ _ _ h with h2 | h2
  · exact absurd h2 (List.not_mem_nil e)
  · exact h2

/-! ### Claims C1, C2 and C10 -/

/-- C1: for every `TemporalNetwork` produced by the public constructors
(`from_presence` on a table inside its documented domain, or repeated
`add_edge` calls starting from the empty network), the two derived indices
agree with the graph: `f ∈ nodes_at_time t` iff `t ∈ when_present f` iff
`(f, t)` is a node of the graph. -/
theorem C1_indices_consistent_with_graph (rows : List StayRow) (d rw : Int)
    (hd : 0 < d) (hv : ∀ r ∈ rows, r.Adate ≤ r.Ddate)
    (es : List ((String × Int) × (String × Int) × Int)) (f : String) (t : Int) :
    ((f ∈ (TemporalNetwork.from_presence rows d rw).nodes_at_time t ↔
        (f, t) ∈ (TemporalNetwork.from_presence rows d rw).nodes) ∧
      (t ∈ (TemporalNetwork.from_presence rows d rw).when_present f ↔
        (f, t) ∈ (TemporalNetwork.from_presence rows d rw).nodes)) ∧
    ((f ∈ (buildNetwork es).nodes_at_time t ↔ (f, t) ∈ (buildNetwork es).nodes) ∧
      (t ∈ (buildNetwork es).when_present f ↔ (f, t) ∈ (buildNetwork es).nodes)) := by
  refine ⟨⟨?_, ?_⟩, buildNetwork_consistent es f t⟩
  · rw [from_presence_nodes_at_time, from_presence_mem_nodes]
  · rw [from_presence_when_present, from_presence_mem_nodes]

/-- Witness for C1 at a concrete presence table and edge list. -/
theorem C1_indices_consistent_with_graph_witness :
    (0 : Int) < 1 ∧
    (∀ r ∈ [(⟨"A", "X", 0, 0⟩ : StayRow), ⟨"A", "Y", 3, 3⟩], r.Adate ≤ r.Ddate) ∧
    (((("X" : String) ∈ (TemporalNetwork.from_presence
          [⟨"A", "X", 0, 0⟩, ⟨"A", "Y", 3, 3⟩] 1 365).nodes_at_time 0 ↔
        (("X" : String), (0 : Int)) ∈ (TemporalNetwork.from_presence
          [⟨"A", "X", 0, 0⟩, ⟨"A", "Y", 3, 3⟩] 1 365).nodes) ∧
      ((0 : Int) ∈ (TemporalNetwork.from_presence
          [⟨"A", "X", 0, 0⟩, ⟨"A", "Y", 3, 3⟩] 1 365).when_present "X" ↔
        (("X" : String), (0 : Int)) ∈ (TemporalNetwork.from_presence
          [⟨"A", "X", 0, 0⟩, ⟨"A", "Y", 3, 3⟩] 1 365).nodes)) ∧
    ((("X" : String) ∈ (buildNetwork [(("X", 0), ("Y", 1), 2)]).nodes_at_time 0 ↔
        (("X" : String), (0 : Int)) ∈ (buildNetwork [(("X", 0), ("Y", 1), 2)]).nodes) ∧
      ((0 : Int) ∈ (buildNetwork [(("X", 0), ("Y", 1), 2)]).when_present "X" ↔
        (("X" : String), (0 : Int)) ∈ (buildNetwork [(("X", 0), ("Y", 1), 2)]).nodes))) :=
  ⟨by decide, by decide,
    C1_indices_consistent_with_graph [⟨"A", "X", 0, 0⟩, ⟨"A", "Y", 3, 3⟩] 1 365
      (by decide) (by decide) [(("X", 0), ("Y", 1), 2)] "X" 0⟩

/-- C2: the two-stay scenario.  One subject `A` at facility `X` on day 0 and
facility `Y` on day 3 (discretisation 1, return window 365) yields exactly
the nodes `(X, 0)` and `(Y, 3)` and the single weighted edge
`(X, 0) → (Y, 3)` of weight 1; adding a second subject `B` with the same two
stays yields the same single edge with weight 2. -/
theorem C2_two_stay_scenario :
    (TemporalNetwork.from_presence [⟨"A", "X", 0, 0⟩, ⟨"A", "Y", 3, 3⟩]
        1 365).nodes = [("X", 0), ("Y", 3)] ∧
    (TemporalNetwork.from_presence [⟨"A", "X", 0, 0⟩, ⟨"A", "Y", 3, 3⟩]
        1 365).edges = [(("X", 0), ("Y", 3), 1)] ∧
    (TemporalNetwork.from_presence
        [⟨"A", "X", 0, 0⟩, ⟨"A", "Y", 3, 3⟩, ⟨"B", "X", 0, 0⟩, ⟨"B", "Y", 3, 3⟩]
        1 365).nodes = [("X", 0), ("Y", 3)] ∧
    (TemporalNetwork.from_presence
        [⟨"A", "X", 0, 0⟩, ⟨"A", "Y", 3, 3⟩, ⟨"B", "X", 0, 0⟩, ⟨"B", "Y", 3, 3⟩]
        1 365).edges = [(("X", 0), ("Y", 3), 2)] := by
  refine ⟨?_, ?_, ?_, ?_⟩ <;> decide

/-- C10: every edge built by `from_presence` points forward (or sideways) in
time: the source node's time unit is at most the target node's time unit. -/
theorem C10_edges_never_point_backwards (rows : List StayRow) (d rw : Int)
    (hd : 0 < d) (hv : ∀ r ∈ rows, r.Adate ≤ r.Ddate) :
    ∀ e ∈ (TemporalNetwork.from_presence rows d rw).edges, e.1.2 ≤ e.2.1.2 := by
  intro e he
  rcases from_presence_edges_key rows d rw e he with ⟨e2, he2, h1, h2⟩
  rcases weightedEdges_key he2 with ⟨pc, hpc, hk1, hk2⟩
  rcases transitionPairs_mem hpc with ⟨hzip, hsid, -⟩
  have hle : presLE pc.1 pc.2 = true :=
    pairwise_zip_drop_one (presenceTable_sorted rows d) pc hzip
  have hpr := presLE_same_sID hle hsid
  rw [h1, hk1, h2, hk2]
  exact hpr

/-- Witness for C10 at a concrete presence table. -/
theorem C10_edges_never_point_backwards_witness :
    (0 : Int) < 1 ∧
    (∀ r ∈ [(⟨"A", "X", 0, 0⟩ : StayRow), ⟨"A", "Y", 3, 3⟩], r.Adate ≤ r.Ddate) ∧
    (∀ e ∈ (TemporalNetwork.from_presence [⟨"A", "X", 0, 0⟩, ⟨"A", "Y", 3, 3⟩]
        1 365).edges, e.1.2 ≤ e.2.1.2) :=
  ⟨by decide, by decide,
    C10_edges_never_point_backwards [⟨"A", "X", 0, 0⟩, ⟨"A", "Y", 3, 3⟩] 1 365
      (by decide) (by decide)⟩

/-! ### The static projection `to_static`

`to_static` projects the temporal network onto its facilities: a plain
weighted digraph whose nodes carry the `present` fraction attribute.  The
source iterates `self.present.items()`, calls `S.add_node(loc, present=...)`,
and for every temporal out-edge of `(loc, t)` with a distinct target facility
accumulates the weight into the static edge via `get_edge_data`/`add_edge`. -/

structure StaticGraph where
  nodesAttr : List (String × Option ℚ)
  edges : List (String × String × Int)
deriving DecidableEq

def StaticGraph.empty : StaticGraph := ⟨[], []⟩

/-- Set (or overwrite) the `present` attribute of a node, appending the node
if it is new: `nx.DiGraph.add_node(loc, present=p)`. -/
def setAttr : List (String × Option ℚ) → String → ℚ → List (String × Option ℚ)
  | [], f, p => [(f, some p)]
  | q :: rest, f, p => if q.1 = f then (f, some p) :: rest else q :: setAttr rest f p

def StaticGraph.addNode (S : StaticGraph) (f : String) (p : ℚ) : StaticGraph :=
  { S with nodesAttr := setAttr S.nodesAttr f p }

/-- `nx.DiGraph.add_edge` registers missing endpoints as attribute-less
nodes. -/
def ensureNode (ns : List (String × Option ℚ)) (f : String) :
    List (String × Option ℚ) :=
  if f ∈ ns.map Prod.fst then ns else ns ++ [(f, none)]

/-- Static edge insertion: replace the weight of an existing `(a, b)` edge,
append a new edge otherwise. -/
def setEdgeS : List (String × String × Int) → String → String → Int →
    List (String × String × Int)
  | [], a, b, w => [(a, b, w)]
  | e :: rest, a, b, w =>
    if e.1 = a ∧ e.2.1 = b then (a, b, w) :: rest else e :: setEdgeS rest a b w

def StaticGraph.add_edge (S : StaticGraph) (a b : String) (w : Int) : StaticGraph :=
  { nodesAttr := ensureNode (ensureNode S.nodesAttr a) b
    edges := setEdgeS S.edges a b w }

/-- `S.get_edge_data(a, b, EMPTY_EDGE)["weight"]`. -/
def edgeWeight : List (String × String × Int) → String → String → Int
  | [], _, _ => 0
  | e :: rest, a, b => if e.1 = a ∧ e.2.1 = b then e.2.2 else edgeWeight rest a b

def StaticGraph.weight (S : StaticGraph) (a b : String) : Int :=
  edgeWeight S.edges a b

def StaticGraph.attr (S : StaticGraph) (f : String) : Option ℚ :=
  lookupD S.nodesAttr f none

/-- `self[loc, t].items()`: the targets and weights of the temporal edges
whose source node is `(loc, t)`. -/
def TemporalNetwork.succEdges (G : TN) (loc : String) (t : Int) :
    List ((String × Int) × Int) :=
  (G.edges.filter (fun e => decide (e.1 = (loc, t)))).map (fun e => (e.2.1, e.2.2))

/-- The inner loop of `to_static` for a fixed source facility `loc` and time
`t`: merge each outgoing temporal edge into the static graph, skipping
self-transitions (`loc != nbr_loc`). -/
def staticEdgeStep (G : TN) (loc : String) (S : StaticGraph) (t : Int) :
    StaticGraph :=
  (G.succEdges loc t).foldl
    (fun S3 nw =>
      if loc ≠ nw.1.1 then S3.add_edge loc nw.1.1 (S3.weight loc nw.1.1 + nw.2)
      else S3) S

/-- One iteration of the outer loop of `to_static`: `S.add_node(loc,
present=len(ts)/Nt)`, then merge the out-edges of every `(loc, t)`. -/
def staticLocStep (G : TN) (S : StaticGraph) (p : String × List Int) :
    StaticGraph :=
  p.2.foldl (staticEdgeStep G p.1)
    (S.addNode p.1 ((p.2.length : ℚ) / (G.snapshots.length : ℚ)))

def TemporalNetwork.to_static (G : TN) : StaticGraph :=
  G.present.foldl (staticLocStep G) StaticGraph.empty

/-! #### Lemmas about the static-graph primitives -/

theorem edgeWeight_setEdgeS_same (es : List (String × String × Int))
    (a b : String) (w : Int) : edgeWeight (setEdgeS es a b w) a b = w := by
  induction es with
  | nil => simp [setEdgeS, edgeWeight]
  | cons e rest ih =>
    by_cases h : e.1 = a ∧ e.2.1 = b
    · simp [setEdgeS, h, edgeWeight]
    · simp [setEdgeS, h, edgeWeight, ih]

theorem edgeWeight_setEdgeS_other (es : List (String × String × Int))
    (a b : String) (w : Int) (x y : String) (h : ¬(x = a ∧ y = b)) :
    edgeWeight (setEdgeS es a b w) x y = edgeWeight es x y := by
  induction es with
  | nil =>
    have h2 : ¬(a = x ∧ b = y) := fun hh => h ⟨hh.1.symm, hh.2.symm⟩
    simp [setEdgeS, edgeWeight, h2]
  | cons e rest ih =>
    by_cases he : e.1 = a ∧ e.2.1 = b
    · have h2 : ¬(a = x ∧ b = y) := fun hh => h ⟨hh.1.symm, hh.2.symm⟩
      have h3 : ¬(e.1 = x ∧ e.2.1 = y) := by
        rintro ⟨rfl, rfl⟩
        exact h ⟨he.1.symm ▸ rfl, he.2.symm ▸ rfl⟩
      simp only [setEdgeS, if_pos he, edgeWeight, h2, if_false]
      rw [if_neg h3]
    · simp only [setEdgeS, if_neg he, edgeWeight]
      by_cases hx : e.1 = x ∧ e.2.1 = y
      · rw [if_pos hx, if_pos hx]
      · rw [if_neg hx, if_neg hx, ih]

theorem setEdgeS_mem {es : List (String × String × Int)} {a b : String}
    {w : Int} {e : String × String × Int} (h : e ∈ setEdgeS es a b w) :
    e ∈ es ∨ (e.1 = a ∧ e.2.1 = b) := by
  induction es with
  | nil =>
    simp only [setEdgeS, List.mem_singleton] at h
    subst h; exact Or.inr ⟨rfl, rfl⟩
  | cons p rest ih =>
    by_cases hp : p.1 = a ∧ p.2.1 = b
    · simp only [setEdgeS, if_pos hp, List.mem_cons] at h
      rcases h with rfl | h
      · exact Or.inr ⟨rfl, rfl⟩
      · exact Or.inl (List.mem_cons_of_mem _ h)
    · simp only [setEdgeS, if_neg hp, List.mem_cons] at h
      rcases h with rfl | h
      · exact Or.inl (List.mem_cons_self _ _)
      · rcases ih h with h2 | h2
        · exact Or.inl (List.mem_cons_of_mem _ h2)
        · exact Or.inr h2

theorem lookupD_append_none (ns : List (String × Option ℚ)) (g f : String) :
    lookupD (ns ++ [(g, none)]) f none = lookupD ns f none := by
  induction ns with
  | nil => by_cases h : g = f <;> simp [lookupD, h]
  | cons q rest ih =>
    by_cases h : q.1 = f <;> simp [lookupD, h, ih]

theorem attr_ensureNode (ns : List (String × Option ℚ)) (g f : String) :
    lookupD (ensureNode ns g) f none = lookupD ns f none := by
  unfold ensureNode
  split_ifs with h
  · rfl
  · exact lookupD_append_none ns g f

theorem lookupD_setAttr_same (ns : List (String × Option ℚ)) (f : String)
    (p : ℚ) : lookupD (setAttr ns f p) f none = some p := by
  induction ns with
  | nil => simp [setAttr, lookupD]
  | cons q rest ih =>
    by_cases h : q.1 = f
    · simp [setAttr, h, lookupD]
    · simp [setAttr, h, lookupD, ih]

theorem lookupD_setAttr_other (ns : List (String × Option ℚ)) (f g : String)
    (p : ℚ) (h : g ≠ f) : lookupD (setAttr ns f p) g none = lookupD ns g none := by
  have hfg : ¬ f = g := fun hh => h hh.symm
  induction ns with
  | nil => simp [setAttr, lookupD, hfg]
  | cons q rest ih =>
    by_cases hq : q.1 = f
    · have hqg : ¬ q.1 = g := by rw [hq]; exact hfg
      simp only [setAttr, if_pos hq, lookupD, if_neg hfg, if_neg hqg]
    · simp only [setAttr, if_neg hq, lookupD]
      by_cases hg : q.1 = g
      · rw [if_pos hg, if_pos hg]
      · rw [if_neg hg, if_neg hg, ih]

theorem StaticGraph.attr_add_edge (S : StaticGraph) (a b : String) (w : Int)
    (f : String) : (S.add_edge a b w).attr f = S.attr f := by
  show lookupD (ensureNode (ensureNode S.nodesAttr a) b) f none = _
  rw [attr_ensureNode, attr_ensureNode]
  rfl

theorem StaticGraph.weight_add_edge_same (S : StaticGraph) (a b : String)
    (w : Int) : (S.add_edge a b w).weight a b = w :=
  edgeWeight_setEdgeS_same S.edges a b w

theorem StaticGraph.weight_add_edge_other (S : StaticGraph) (a b : String)
    (w : Int) (x y : String) (h : ¬(x = a ∧ y = b)) :
    (S.add_edge a b w).weight x y = S.weight x y :=
  edgeWeight_setEdgeS_other S.edges a b w x y h

theorem StaticGraph.weight_addNode (S : StaticGraph) (f : String) (p : ℚ)
    (x y : String) : (S.addNode f p).weight x y = S.weight x y := rfl

theorem StaticGraph.attr_addNode_same (S : StaticGraph) (f : String) (p : ℚ) :
    (S.addNode f p).attr f = some p :=
  lookupD_setAttr_same S.nodesAttr f p

theorem StaticGraph.attr_addNode_other (S : StaticGraph) (f g : String) (p : ℚ)
    (h : g ≠ f) : (S.addNode f p).attr g = S.attr g :=
  lookupD_setAttr_other S.nodesAttr f g p h

/-! #### The three nested folds of `to_static` -/

/-- The weight contributed at one `(loc, t)` towards the static edge
`loc → b`. -/
def outSum (G : TN) (loc b : String) (t : Int) : Int :=
  (((G.succEdges loc t).filter (fun nw => decide (nw.1.1 = b))).map
    (fun nw => nw.2)).sum

theorem edgeMerge_fold_weight (loc : String) (E : List ((String × Int) × Int)) :
    ∀ (S : StaticGraph) (a b : String), a ≠ b →
      (E.foldl
        (fun S3 nw =>
          if loc ≠ nw.1.1 then S3.add_edge loc nw.1.1 (S3.weight loc nw.1.1 + nw.2)
          else S3) S).weight a b =
        S.weight a b +
          (if loc = a then
            ((E.filter (fun nw => decide (nw.1.1 = b))).map (fun nw => nw.2)).sum
          else 0) := by
  induction E with
  | nil =>
    intro S a b hab
    by_cases hla : loc = a <;> simp [hla]
  | cons nw E ih =>
    intro S a b hab
    rw [List.foldl_cons, ih _ a b hab]
    by_cases hloc : loc = nw.1.1
    · rw [if_neg (not_not_intro hloc)]
      by_cases hla : loc = a
      · have hnb2 : decide (nw.1.1 = b) = false := by
          rw [← hloc, hla]
          simp [hab]
        rw [if_pos hla, if_pos hla]
        simp only [List.filter_cons, hnb2, Bool.false_eq_true, if_false]
      · rw [if_neg hla, if_neg hla]
    · rw [if_pos hloc]
      by_cases hla : loc = a
      · subst hla
        by_cases hnb : nw.1.1 = b
        · subst hnb
          rw [StaticGraph.weight_add_edge_same, if_pos rfl, if_pos rfl]
          simp only [List.filter_cons, decide_True, if_true, List.map_cons,
            List.sum_cons]
          omega
        · have hkey : ¬ (loc = loc ∧ b = nw.1.1) := by
            rintro ⟨-, rfl⟩
            exact hnb rfl
          have hnb2 : decide (nw.1.1 = b) = false := by simp [hnb]
          rw [StaticGraph.weight_add_edge_other _ _ _ _ _ _ hkey, if_pos rfl,
            if_pos rfl]
          simp only [List.filter_cons, hnb2, Bool.false_eq_true, if_false]
      · have hkey : ¬ (a = loc ∧ b = nw.1.1) := by
          rintro ⟨rfl, -⟩
          exact hla rfl
        rw [StaticGraph.weight_add_edge_other _ _ _ _ _ _ hkey, if_neg hla,
          if_neg hla]

theorem edgeMerge_fold_attr (loc : String) (E : List ((String × Int) × Int)) :
    ∀ (S : StaticGraph) (f : String),
      (E.foldl
        (fun S3 nw =>
          if loc ≠ nw.1.1 then S3.add_edge loc nw.1.1 (S3.weight loc nw.1.1 + nw.2)
          else S3) S).attr f = S.attr f := by
  induction E with
  | nil => intro S f; rfl
  | cons nw E ih =>
    intro S f
    rw [List.foldl_cons, ih]
    by_cases hloc : loc = nw.1.1
    · rw [if_neg (not_not_intro hloc)]
    · rw [if_pos hloc, StaticGraph.attr_add_edge]

theorem edgeMerge_fold_weight_diag (loc : String)
    (E : List ((String × Int) × Int)) :
    ∀ (S : StaticGraph) (c : String),
      (E.foldl
        (fun S3 nw =>
          if loc ≠ nw.1.1 then S3.add_edge loc nw.1.1 (S3.weight loc nw.1.1 + nw.2)
          else S3) S).weight c c = S.weight c c := by
  induction E with
  | nil => intro S c; rfl
  | cons nw E ih =>
    intro S c
    rw [List.foldl_cons, ih]
    by_cases hloc : loc = nw.1.1
    · rw [if_neg (not_not_intro hloc)]
    · have hkey : ¬ (c = loc ∧ c = nw.1.1) := by
        rintro ⟨rfl, rfl⟩
        exact hloc rfl
      rw [if_pos hloc, StaticGraph.weight_add_edge_other _ _ _ _ _ _ hkey]

theorem edgeMerge_fold_keys (loc : String) (E : List ((String × Int) × Int)) :
    ∀ (S : StaticGraph), (∀ e ∈ S.edges, e.1 ≠ e.2.1) →
      ∀ e ∈ (E.foldl
        (fun S3 nw =>
          if loc ≠ nw.1.1 then S3.add_edge loc nw.1.1 (S3.weight loc nw.1.1 + nw.2)
          else S3) S).edges, e.1 ≠ e.2.1 := by
  induction E with
  | nil => intro S h; exact h
  | cons nw E ih =>
    intro S h
    rw [List.foldl_cons]
    apply ih
    by_cases hloc : loc = nw.1.1
    · rw [if_neg (not_not_intro hloc)]
      exact h
    · rw [if_pos hloc]
      intro e he
      rcases setEdgeS_mem he with h2 | h2
      · exact h e h2
      · rw [h2.1, h2.2]
        exact hloc

theorem staticEdgeStep_weight (G : TN) (loc : String) (S : StaticGraph)
    (t : Int) (a b : String) (hab : a ≠ b) :
    (staticEdgeStep G loc S t).weight a b =
      S.weight a b + (if loc = a then outSum G loc b t else 0) :=
  edgeMerge_fold_weight loc (G.succEdges loc t) S a b hab

theorem staticEdgeStep_attr (G : TN) (loc : String) (S : StaticGraph)
    (t : Int) (f : String) : (staticEdgeStep G loc S t).attr f = S.attr f :=
  edgeMerge_fold_attr loc (G.succEdges loc t) S f

theorem staticEdgeStep_weight_diag (G : TN) (loc : String) (S : StaticGraph)
    (t : Int) (c : String) : (staticEdgeStep G loc S t).weight c c = S.weight c c :=
  edgeMerge_fold_weight_diag loc (G.succEdges loc t) S c

theorem staticEdgeStep_keys (G : TN) (loc : String) (S : StaticGraph) (t : Int)
    (h : ∀ e ∈ S.edges, e.1 ≠ e.2.1) :
    ∀ e ∈ (staticEdgeStep G loc S t).edges, e.1 ≠ e.2.1 :=
  edgeMerge_fold_keys loc (G.succEdges loc t) S h

theorem tsFold_weight (G : TN) (loc : String) (ts : List Int) :
    ∀ (S : StaticGraph) (a b : String), a ≠ b →
      (ts.foldl (staticEdgeStep G loc) S).weight a b =
        S.weight a b +
          (if loc = a then (ts.map (fun t => outSum G loc b t)).sum else 0) := by
  induction ts with
  | nil =>
    intro S a b hab
    by_cases hla : loc = a <;> simp [hla]
  | cons t ts ih =>
    intro S a b hab
    rw [List.foldl_cons, ih _ a b hab, staticEdgeStep_weight G loc S t a b hab,
      List.map_cons, List.sum_cons]
    by_cases hla : loc = a
    · rw [if_pos hla, if_pos hla, if_pos hla]
      omega
    · rw [if_neg hla, if_neg hla, if_neg hla]
      omega

theorem tsFold_attr (G : TN) (loc : String) (ts : List Int) :
    ∀ (S : StaticGraph) (f : String),
      (ts.foldl (staticEdgeStep G loc) S).attr f = S.attr f := by
  induction ts with
  | nil => intro S f; rfl
  | cons t ts ih =>
    intro S f
    rw [List.foldl_cons, ih, staticEdgeStep_attr]

theorem tsFold_weight_diag (G : TN) (loc : String) (ts : List Int) :
    ∀ (S : StaticGraph) (c : String),
      (ts.foldl (staticEdgeStep G loc) S).weight c c = S.weight c c := by
  induction ts with
  | nil => intro S c; rfl
  | cons t ts ih =>
    intro S c
    rw [List.foldl_cons, ih, staticEdgeStep_weight_diag]

theorem tsFold_keys (G : TN) (loc : String) (ts : List Int) :
    ∀ (S : StaticGraph), (∀ e ∈ S.edges, e.1 ≠ e.2.1) →
      ∀ e ∈ (ts.foldl (staticEdgeStep G loc) S).edges, e.1 ≠ e.2.1 := by
  induction ts with
  | nil => intro S h; exact h
  | cons t ts ih =>
    intro S h
    rw [List.foldl_cons]
    exact ih _ (staticEdgeStep_keys G loc S t h)

theorem staticLocStep_weight (G : TN) (S : StaticGraph)
    (p : String × List Int) (a b : String) (hab : a ≠ b) :
    (staticLocStep G S p).weight a b =
      S.weight a b +
        (if p.1 = a then (p.2.map (fun t => outSum G p.1 b t)).sum else 0) := by
  unfold staticLocStep
  rw [tsFold_weight G p.1 p.2 _ a b hab, StaticGraph.weight_addNode]

theorem staticLocStep_weight_diag (G : TN) (S : StaticGraph)
    (p : String × List Int) (c : String) :
    (staticLocStep G S p).weight c c = S.weight c c := by
  unfold staticLocStep
  rw [tsFold_weight_diag, StaticGraph.weight_addNode]

theorem staticLocStep_keys (G : TN) (S : StaticGraph) (p : String × List Int)
    (h : ∀ e ∈ S.edges, e.1 ≠ e.2.1) :
    ∀ e ∈ (staticLocStep G S p).edges, e.1 ≠ e.2.1 := by
  unfold staticLocStep
  exact tsFold_keys G p.1 p.2 _ h

theorem staticLocStep_attr_same (G : TN) (S : StaticGraph)
    (p : String × List Int) :
    (staticLocStep G S p).attr p.1 =
      some ((p.2.length : ℚ) / (G.snapshots.length : ℚ)) := by
  unfold staticLocStep
  rw [tsFold_attr, StaticGraph.attr_addNode_same]

theorem staticLocStep_attr_other (G : TN) (S : StaticGraph)
    (p : String × List Int) (f : String) (h : f ≠ p.1) :
    (staticLocStep G S p).attr f = S.attr f := by
  unfold staticLocStep
  rw [tsFold_attr, StaticGraph.attr_addNode_other _ _ _ _ h]

theorem presentFold_weight (G : TN) (ps : List (String × List Int)) :
    ∀ (S : StaticGraph) (a b : String), a ≠ b →
      (ps.foldl (staticLocStep G) S).weight a b =
        S.weight a b +
          ((ps.filter (fun p => decide (p.1 = a))).map
            (fun p => (p.2.map (fun t => outSum G a b t)).sum)).sum := by
  induction ps with
  | nil => intro S a b _; simp
  | cons p ps ih =>
    intro S a b hab
    rw [List.foldl_cons, ih _ a b hab, staticLocStep_weight G S p a b hab]
    by_cases hpa : p.1 = a
    · subst hpa
      rw [if_pos rfl]
      simp only [List.filter_cons, decide_True, if_true, List.map_cons,
        List.sum_cons]
      omega
    · rw [if_neg hpa]
      have h2 : decide (p.1 = a) = false := by simp [hpa]
      simp only [List.filter_cons, h2, Bool.false_eq_true, if_false]
      omega

theorem presentFold_attr_frozen (G : TN) (ps : List (String × List Int)) :
    ∀ (S : StaticGraph) (f : String), f ∉ ps.map Prod.fst →
      (ps.foldl (staticLocStep G) S).attr f = S.attr f := by
  induction ps with
  | nil => intro S f _; rfl
  | cons p ps ih =>
    intro S f hf
    rw [List.foldl_cons, ih _ f (fun h => hf (List.mem_cons_of_mem _ h)),
      staticLocStep_attr_other G S p f
        (fun h => hf (by rw [h]; exact List.mem_cons_self _ _))]

theorem presentFold_attr (G : TN) (ps : List (String × List Int)) :
    ∀ (S : StaticGraph), (ps.map Prod.fst).Nodup →
      ∀ p ∈ ps, (ps.foldl (staticLocStep G) S).attr p.1 =
        some ((p.2.length : ℚ) / (G.snapshots.length : ℚ)) := by
  induction ps with
  | nil => intro S _ p hp; simp at hp
  | cons q ps ih =>
    intro S hnd p hp
    rw [List.map_cons, List.nodup_cons] at hnd
    rw [List.foldl_cons]
    rcases List.mem_cons.mp hp with rfl | hp
    · rw [presentFold_attr_frozen G ps _ p.1 hnd.1, staticLocStep_attr_same]
    · exact ih _ hnd.2 p hp

theorem presentFold_keys (G : TN) (ps : List (String × List Int)) :
    ∀ (S : StaticGraph), (∀ e ∈ S.edges, e.1 ≠ e.2.1) →
      ∀ e ∈ (ps.foldl (staticLocStep G) S).edges, e.1 ≠ e.2.1 := by
  induction ps with
  | nil => intro S h; exact h
  | cons p ps ih =>
    intro S h
    rw [List.foldl_cons]
    exact ih _ (staticLocStep_keys G S p h)

/-! #### Dictionary and sum bookkeeping -/

theorem lookupD_default_of_not_mem {α β : Type} [DecidableEq α]
    {ps : List (α × β)} {a : α} {d : β} (h : a ∉ ps.map Prod.fst) :
    lookupD ps a d = d := by
  induction ps with
  | nil => rfl
  | cons p rest ih =>
    simp only [List.map_cons, List.mem_cons] at h
    push_neg at h
    simp only [lookupD, if_neg (fun hh : p.1 = a => h.1 hh.symm)]
    exact ih h.2

theorem lookupD_eq_of_mem_nodup {α β : Type} [DecidableEq α]
    {ps : List (α × β)} (hnd : (ps.map Prod.fst).Nodup) {a : α} {ts d : β}
    (h : (a, ts) ∈ ps) : lookupD ps a d = ts := by
  induction ps with
  | nil => simp at h
  | cons p rest ih =>
    rw [List.map_cons, List.nodup_cons] at hnd
    rcases List.mem_cons.mp h with rfl | h2
    · simp [lookupD]
    · have hpa : ¬ p.1 = a := by
        rintro rfl
        exact hnd.1 (List.mem_map.mpr ⟨(p.1, ts), h2, rfl⟩)
      simp only [lookupD, if_neg hpa]
      exact ih hnd.2 h2

theorem filter_key_single {α β : Type} [DecidableEq α] {ps : List (α × β)}
    (hnd : (ps.map Prod.fst).Nodup) {a : α} {ts : β} (h : (a, ts) ∈ ps) :
    ps.filter (fun p => decide (p.1 = a)) = [(a, ts)] := by
  induction ps with
  | nil => simp at h
  | cons p rest ih =>
    rw [List.map_cons, List.nodup_cons] at hnd
    rcases List.mem_cons.mp h with rfl | h2
    · have hrest : rest.filter (fun p => decide (p.1 = a)) = [] := by
        rw [List.filter_eq_nil_iff]
        intro q hq
        simp only [decide_eq_true_eq]
        rintro rfl
        exact hnd.1 (List.mem_map.mpr ⟨q, hq, rfl⟩)
      simp [List.filter_cons, hrest]
    · have hpa : ¬ p.1 = a := by
        rintro rfl
        exact hnd.1 (List.mem_map.mpr ⟨(p.1, ts), h2, rfl⟩)
      have h2d : decide (p.1 = a) = false := by simp [hpa]
      simp only [List.filter_cons, h2d, Bool.false_eq_true, if_false]
      exact ih hnd.2 h2

theorem filter_key_nil {α β : Type} [DecidableEq α] {ps : List (α × β)}
    {a : α} (h : a ∉ ps.map Prod.fst) :
    ps.filter (fun p => decide (p.1 = a)) = [] := by
  rw [List.filter_eq_nil_iff]
  intro q hq
  simp only [decide_eq_true_eq]
  rintro rfl
  exact h (List.mem_map.mpr ⟨q, hq, rfl⟩)

theorem sum_map_add_int {α : Type} (l : List α) (f g : α → Int) :
    (l.map (fun x => f x + g x)).sum = (l.map f).sum + (l.map g).sum := by
  induction l with
  | nil => simp
  | cons x l ih =>
    simp only [List.map_cons, List.sum_cons, ih]
    omega

theorem sum_map_ite_zero_of_not_mem {w : Int} {ts : List Int} {t0 : Int}
    (h : t0 ∉ ts) : (ts.map (fun t => if t0 = t then w else 0)).sum = 0 := by
  induction ts with
  | nil => rfl
  | cons t ts ih =>
    simp only [List.mem_cons] at h
    push_neg at h
    simp only [List.map_cons, List.sum_cons, if_neg h.1, ih h.2, add_zero]

theorem sum_map_ite_single {w : Int} : ∀ {ts : List Int}, ts.Nodup →
    ∀ {t0 : Int}, t0 ∈ ts →
      (ts.map (fun t => if t0 = t then w else 0)).sum = w := by
  intro ts
  induction ts with
  | nil => intro _ t0 h; simp at h
  | cons t ts ih =>
    intro hnd t0 h
    have hnd2 := List.nodup_cons.mp hnd
    rcases List.mem_cons.mp h with rfl | h2
    · simp only [List.map_cons, List.sum_cons, if_pos rfl, if_true,
        eq_self_iff_true, sum_map_ite_zero_of_not_mem hnd2.1, add_zero]
    · have hne : ¬ t0 = t := by
        rintro rfl
        exact hnd2.1 h2
      simp only [List.map_cons, List.sum_cons, if_neg hne, ih hnd2.2 h2,
        zero_add]

/-- Summing the per-time-unit out-weights over the (distinct) times at which
a facility is present equals summing over all temporal edges out of that
facility, provided the `present` index covers every edge source. -/
theorem sum_times_eq_sum_edges (a b : String)
    (es : List ((String × Int) × (String × Int) × Int)) :
    ∀ (ts : List Int), ts.Nodup → (∀ e ∈ es, e.1.1 = a → e.1.2 ∈ ts) →
      (ts.map (fun t =>
        ((es.filter (fun e => decide (e.1 = (a, t)) && decide (e.2.1.1 = b))).map
          (fun e => e.2.2)).sum)).sum =
      ((es.filter (fun e => decide (e.1.1 = a) && decide (e.2.1.1 = b))).map
        (fun e => e.2.2)).sum := by
  induction es with
  | nil => intro ts _ _; simp
  | cons e es ih =>
    intro ts hnd hsrc
    have hrec := ih ts hnd (fun e2 h2 => hsrc e2 (List.mem_cons_of_mem _ h2))
    have hpt : ∀ t ∈ ts,
        (((e :: es).filter
          (fun e => decide (e.1 = (a, t)) && decide (e.2.1.1 = b))).map
          (fun e => e.2.2)).sum =
        (if e.1 = (a, t) ∧ e.2.1.1 = b then e.2.2 else 0) +
          ((es.filter
            (fun e => decide (e.1 = (a, t)) && decide (e.2.1.1 = b))).map
            (fun e => e.2.2)).sum := by
      intro t _
      by_cases hc : e.1 = (a, t) ∧ e.2.1.1 = b
      · have hc2 : (decide (e.1 = (a, t)) && decide (e.2.1.1 = b)) = true := by
          simp [hc.1, hc.2]
        simp [List.filter_cons, hc2, if_pos hc]
      · have hc2 : (decide (e.1 = (a, t)) && decide (e.2.1.1 = b)) = false := by
          rcases not_and_or.mp hc with h | h <;> simp [h]
        simp [List.filter_cons, hc2, if_neg hc]
    rw [List.map_congr_left hpt, sum_map_add_int, hrec]
    by_cases he : e.1.1 = a ∧ e.2.1.1 = b
    · have hpt2 : ∀ t ∈ ts,
          (if e.1 = (a, t) ∧ e.2.1.1 = b then e.2.2 else 0) =
            (if e.1.2 = t then e.2.2 else 0) := by
        intro t _
        by_cases ht : e.1.2 = t
        · rw [if_pos ht, if_pos ⟨Prod.ext_iff.mpr ⟨he.1, ht⟩, he.2⟩]
        · rw [if_neg ht, if_neg (fun hh => ht (congrArg Prod.snd hh.1))]
      rw [List.map_congr_left hpt2,
        sum_map_ite_single hnd (hsrc e (List.mem_cons_self _ _) he.1)]
      have hc2 : (decide (e.1.1 = a) && decide (e.2.1.1 = b)) = true := by
        simp [he.1, he.2]
      simp only [List.filter_cons, hc2, if_true, List.map_cons, List.sum_cons]
    · have hpt2 : ∀ t ∈ ts,
          (if e.1 = (a, t) ∧ e.2.1.1 = b then e.2.2 else 0) = (0 : Int) := by
        intro t _
        rw [if_neg]
        rintro ⟨h1, h2⟩
        exact he ⟨congrArg Prod.fst h1, h2⟩
      rw [List.map_congr_left hpt2]
      have hc2 : (decide (e.1.1 = a) && decide (e.2.1.1 = b)) = false := by
        rcases not_and_or.mp he with h | h <;> simp [h]
      simp only [List.filter_cons, hc2, Bool.false_eq_true, if_false]
      have hz : (ts.map (fun _ => (0 : Int))).sum = 0 := by
        induction ts with
        | nil => rfl
        | cons t2 ts2 ih2 => simpa using ih2
      rw [hz, zero_add]

theorem outSum_list (a b : String) (t : Int)
    (es : List ((String × Int) × (String × Int) × Int)) :
    ((((es.filter (fun e => decide (e.1 = (a, t)))).map
      (fun e => (e.2.1, e.2.2))).filter (fun nw => decide (nw.1.1 = b))).map
      (fun nw => nw.2)).sum =
    ((es.filter (fun e => decide (e.1 = (a, t)) && decide (e.2.1.1 = b))).map
      (fun e => e.2.2)).sum := by
  induction es with
  | nil => rfl
  | cons e es ih =>
    by_cases h1 : e.1 = (a, t)
    · by_cases h2 : e.2.1.1 = b
      · simp [List.filter_cons, h1, h2, ih]
      · simp [List.filter_cons, h1, h2, ih]
    · simp [List.filter_cons, h1, ih]

/-- `outSum` written directly over the temporal edge list. -/
theorem outSum_eq_filter (G : TN) (a b : String) (t : Int) :
    outSum G a b t =
      ((G.edges.filter
        (fun e => decide (e.1 = (a, t)) && decide (e.2.1.1 = b))).map
        (fun e => e.2.2)).sum :=
  outSum_list a b t G.edges

/-- The assumptions under which the `to_static` loop runs without a
`KeyError` (every `(loc, t)` visited is a graph node, every edge source is
indexed) or `ZeroDivisionError`, and under which the indices hold set-like
data (distinct keys, distinct bucket entries).  Constructor-built networks
satisfy all of them. -/
def WellFormedStatic (G : TN) : Prop :=
  (G.present.map Prod.fst).Nodup ∧
  (∀ p ∈ G.present, p.2.Nodup) ∧
  (∀ e ∈ G.edges, e.1.2 ∈ lookupD G.present e.1.1 []) ∧
  (G.snapshots.map Prod.fst).Nodup ∧
  (∀ p ∈ G.present, ∀ t ∈ p.2, (p.1, t) ∈ G.nodes) ∧
  (G.present = [] ∨ G.snapshots ≠ [])

instance WellFormedStatic.instDecidable (G : TN) :
    Decidable (WellFormedStatic G) := by
  unfold WellFormedStatic
  infer_instance

/-- C3: for every well-formed `TemporalNetwork` and ordered pair of distinct
facilities `a ≠ b`, `to_static` gives static weight `a → b` equal to the sum
of all temporal edge weights from `(a, *)` to `(b, *)`; no static edge is a
self-loop (temporal self-transitions are excluded); and every facility key of
the `present` index carries attribute `present = |when_present| / number of
distinct time units`. -/
theorem C3_to_static_weights_and_presence (G : TN) (h : WellFormedStatic G)
    (a b : String) (hab : a ≠ b) :
    G.to_static.weight a b =
      ((G.edges.filter (fun e => decide (e.1.1 = a) && decide (e.2.1.1 = b))).map
        (fun e => e.2.2)).sum ∧
    (∀ e ∈ G.to_static.edges, e.1 ≠ e.2.1) ∧
    (∀ p ∈ G.present, G.to_static.attr p.1 =
      some ((p.2.length : ℚ) / (G.snapshots.length : ℚ))) := by
  obtain ⟨hnd, hts, hsrc, -, -, -⟩ := h
  refine ⟨?_, ?_, ?_⟩
  · show (G.present.foldl (staticLocStep G) StaticGraph.empty).weight a b = _
    rw [presentFold_weight G G.present StaticGraph.empty a b hab]
    by_cases ha : a ∈ G.present.map Prod.fst
    · rcases List.mem_map.mp ha with ⟨p, hp, hpa⟩
      have hmem : (a, p.2) ∈ G.present := by
        rw [← hpa]
        exact Prod.mk.eta ▸ hp
      rw [filter_key_single hnd hmem]
      simp only [List.map_cons, List.map_nil, List.sum_cons, List.sum_nil,
        add_zero]
      have hw : StaticGraph.empty.weight a b = 0 := rfl
      rw [hw, zero_add]
      have hconv : ∀ t ∈ p.2, outSum G a b t =
          ((G.edges.filter
            (fun e => decide (e.1 = (a, t)) && decide (e.2.1.1 = b))).map
            (fun e => e.2.2)).sum :=
        fun t _ => outSum_eq_filter G a b t
      rw [List.map_congr_left hconv]
      apply sum_times_eq_sum_edges a b G.edges p.2 (hts p hp)
      intro e he hea
      have h2 := hsrc e he
      rw [hea, lookupD_eq_of_mem_nodup hnd hmem] at h2
      exact h2
    · rw [filter_key_nil ha]
      simp only [List.map_nil, List.sum_nil, add_zero]
      have hfil : G.edges.filter
          (fun e => decide (e.1.1 = a) && decide (e.2.1.1 = b)) = [] := by
        rw [List.filter_eq_nil_iff]
        intro e he
        simp only [Bool.and_eq_true, decide_eq_true_eq, not_and]
        intro hea
        have h2 := hsrc e he
        rw [hea, lookupD_default_of_not_mem ha] at h2
        exact absurd h2 (List.not_mem_nil _)
      rw [hfil]
      rfl
  · show ∀ e ∈ (G.present.foldl (staticLocStep G) StaticGraph.empty).edges, _
    apply presentFold_keys G G.present StaticGraph.empty
    intro e he
    exact absurd he (List.not_mem_nil _)
  · intro p hp
    exact presentFold_attr G G.present StaticGraph.empty hnd p hp

/-- Witness for C3 at the network of the two-stay scenario. -/
theorem C3_to_static_weights_and_presence_witness :
    WellFormedStatic (TemporalNetwork.from_presence
      [⟨"A", "X", 0, 0⟩, ⟨"A", "Y", 3, 3⟩] 1 365) ∧
    ("X" : String) ≠ "Y" ∧
    ((TemporalNetwork.from_presence [⟨"A", "X", 0, 0⟩, ⟨"A", "Y", 3, 3⟩]
        1 365).to_static.weight "X" "Y" =
      (((TemporalNetwork.from_presence [⟨"A", "X", 0, 0⟩, ⟨"A", "Y", 3, 3⟩]
          1 365).edges.filter
        (fun e => decide (e.1.1 = "X") && decide (e.2.1.1 = "Y"))).map
        (fun e => e.2.2)).sum) ∧
    (∀ e ∈ (TemporalNetwork.from_presence [⟨"A", "X", 0, 0⟩, ⟨"A", "Y", 3, 3⟩]
        1 365).to_static.edges, e.1 ≠ e.2.1) ∧
    (∀ p ∈ (TemporalNetwork.from_presence [⟨"A", "X", 0, 0⟩, ⟨"A", "Y", 3, 3⟩]
        1 365).present,
      (TemporalNetwork.from_presence [⟨"A", "X", 0, 0⟩, ⟨"A", "Y", 3, 3⟩]
        1 365).to_static.attr p.1 =
        some ((p.2.length : ℚ) /
          ((TemporalNetwork.from_presence [⟨"A", "X", 0, 0⟩, ⟨"A", "Y", 3, 3⟩]
            1 365).snapshots.length : ℚ))) :=
  ⟨by decide, by decide,
    C3_to_static_weights_and_presence
      (TemporalNetwork.from_presence [⟨"A", "X", 0, 0⟩, ⟨"A", "Y", 3, 3⟩] 1 365)
      (by decide) "X" "Y" (by decide)⟩

/-! ### Snapshot and time-series engine (`tempest/basic_temporal_analysis.py`)

Snapshot graphs reuse `StaticGraph` (plain digraph over facilities).  The
external graph-metric collaborators are parameters: a fallible metric is a
function into `Except String ℚ`, and `nx.global_reaching_centrality` is an
arbitrary total function `StaticGraph → ℚ`. -/

def StaticGraph.numNodes (S : StaticGraph) : Nat := S.nodesAttr.length

/-- `snapshots_outbound(G, weight, compose)`: one `(t, S_t)` pair per entry
of `G.snapshots`; `S_t` collapses the out-edges of every `(loc, t)` onto
facilities, merging parallel transitions with `compose` (default `+`). -/
def snapshots_outbound (G : TN) (compose : Int → Int → Int) :
    List (Int × StaticGraph) :=
  G.snapshots.map (fun st =>
    (st.1, st.2.foldl (fun S loc =>
      (G.succEdges loc st.1).foldl
        (fun S nw => S.add_edge loc nw.1.1 (compose (S.weight loc nw.1.1) nw.2))
        S)
      StaticGraph.empty))

/-- `failover(func, default)`: return the metric's value, or `default` when
it raises. -/
def failover (method : StaticGraph → Except String ℚ) (default : ℚ)
    (S : StaticGraph) : ℚ :=
  match method S with
  | .ok v => v
  | .error _ => default

/-- The warnings emitted by the `failover` wrapper over a snapshot sequence:
one `warnings.warn(str(e))` per failing snapshot, in iteration order. -/
def failoverWarnings (method : StaticGraph → Except String ℚ)
    (snaps : List (Int × StaticGraph)) : List String :=
  snaps.filterMap (fun p =>
    match method p.2 with
    | .error e => some e
    | .ok _ => none)

/-- Python's `sorted` on `(t, value)` tuples: lexicographic order. -/
def pairLE (x y : Int × ℚ) : Bool :=
  decide (x.1 < y.1) || (decide (x.1 = y.1) && decide (x.2 ≤ y.2))

def sortPairs (l : List (Int × ℚ)) : List (Int × ℚ) := sortLe pairLE l

theorem pairLE_total (x y : Int × ℚ) : pairLE x y = true ∨ pairLE y x = true := by
  simp only [pairLE, Bool.or_eq_true, Bool.and_eq_true, decide_eq_true_eq]
  rcases lt_trichotomy x.1 y.1 with h | h | h
  · exact Or.inl (Or.inl h)
  · rcases le_total x.2 y.2 with h2 | h2
    · exact Or.inl (Or.inr ⟨h, h2⟩)
    · exact Or.inr (Or.inr ⟨h.symm, h2⟩)
  · exact Or.inr (Or.inl h)

theorem pairLE_trans (x y z : Int × ℚ) (h1 : pairLE x y = true)
    (h2 : pairLE y z = true) : pairLE x z = true := by
  simp only [pairLE, Bool.or_eq_true, Bool.and_eq_true, decide_eq_true_eq] at h1 h2 ⊢
  rcases h1 with h1 | ⟨h1a, h1b⟩
  · rcases h2 with h2 | ⟨h2a, h2b⟩
    · exact Or.inl (lt_trans h1 h2)
    · exact Or.inl (h2a ▸ h1)
  · rcases h2 with h2 | ⟨h2a, h2b⟩
    · exact Or.inl (h1a ▸ h2)
    · exact Or.inr ⟨h1a.trans h2a, le_trans h1b h2b⟩

/-- Evaluating `(t, method(S))` over the snapshot sequence in iteration
order, as the generator consumed by `sorted` does: the first failure
propagates. -/
def collectPairs (method : StaticGraph → Except String ℚ) :
    List (Int × StaticGraph) → Except String (List (Int × ℚ))
  | [] => .ok []
  | p :: rest =>
    match method p.2 with
    | .error e => .error e
    | .ok v =>
      match collectPairs method rest with
      | .error e => .error e
      | .ok l => .ok ((p.1, v) :: l)

/-- `temporal_timeseries(G, method, safe, default)`: when `safe` is false the
metric is wrapped in `failover` and the traversal is total; when `safe` is
true the first metric failure propagates out of `sorted`. -/
def temporal_timeseries (G : TN) (method : StaticGraph → Except String ℚ)
    (safe : Bool) (default : ℚ) : Except String (List (Int × ℚ)) :=
  if safe then
    match collectPairs method (snapshots_outbound G (· + ·)) with
    | .error e => .error e
    | .ok pairs => .ok (sortPairs pairs)
  else
    .ok (sortPairs ((snapshots_outbound G (· + ·)).map
      (fun p => (p.1, failover method default p.2))))

/-- The inner guard of `global_reaching_timeseries`: snapshots with fewer
than 2 nodes return 0 without calling `nx.global_reaching_centrality`. -/
def guardedGlobalReachingCentrality (grc : StaticGraph → ℚ)
    (S : StaticGraph) : ℚ :=
  if S.numNodes < 2 then 0 else grc S

def global_reaching_timeseries (G : TN) (grc : StaticGraph → ℚ) :
    List (Int × ℚ) :=
  sortPairs ((snapshots_outbound G (· + ·)).map
    (fun p => (p.1, guardedGlobalReachingCentrality grc p.2)))

/-! #### Lemmas for the time-series claims -/

theorem snapshots_outbound_fst (G : TN) (c : Int → Int → Int) :
    (snapshots_outbound G c).map Prod.fst = G.snapshots.map Prod.fst := by
  unfold snapshots_outbound
  rw [List.map_map]
  rfl

theorem map_fst_mk {γ δ : Type} (l : List (Int × γ)) (f : Int × γ → δ) :
    (l.map (fun p => (p.1, f p))).map Prod.fst = l.map Prod.fst := by
  rw [List.map_map]
  rfl

theorem collectPairs_all_ok (method : StaticGraph → Except String ℚ)
    (default : ℚ) :
    ∀ (snaps : List (Int × StaticGraph)),
      (∀ p ∈ snaps, (method p.2).isOk = true) →
        collectPairs method snaps =
          .ok (snaps.map (fun p => (p.1, failover method default p.2))) := by
  intro snaps
  induction snaps with
  | nil => intro _; rfl
  | cons q snaps ih =>
    intro h
    have hq := h q (List.mem_cons_self _ _)
    cases hmq : method q.2 with
    | error e => rw [hmq] at hq; simp [Except.isOk, Except.toBool] at hq
    | ok v =>
      simp only [collectPairs, hmq,
        ih (fun p hp => h p (List.mem_cons_of_mem _ hp)), List.map_cons]
      simp [failover, hmq]

theorem collectPairs_isOk_false (method : StaticGraph → Except String ℚ) :
    ∀ (snaps : List (Int × StaticGraph)) (p : Int × StaticGraph),
      p ∈ snaps → (method p.2).isOk = false →
        (collectPairs method snaps).isOk = false := by
  intro snaps
  induction snaps with
  | nil => intro p hp; simp at hp
  | cons q snaps ih =>
    intro p hp hbad
    rcases List.mem_cons.mp hp with rfl | hp2
    · cases hmq : method p.2 with
      | error e => simp [collectPairs, hmq, Except.isOk, Except.toBool]
      | ok v => rw [hmq] at hbad; simp [Except.isOk, Except.toBool] at hbad
    · cases hmq : method q.2 with
      | error e => simp [collectPairs, hmq, Except.isOk, Except.toBool]
      | ok v =>
        have hrec := ih p hp2 hbad
        cases hc : collectPairs method snaps with
        | error e => simp [collectPairs, hmq, hc, Except.isOk, Except.toBool]
        | ok l => rw [hc] at hrec; simp [Except.isOk, Except.toBool] at hrec

/-! ### Claims C6 and C7 -/

/-- C6: `temporal_timeseries` returns one `(t, value)` pair per snapshot,
sorted strictly ascending in `t`; with `safe = false` a failing snapshot
contributes `(t, default)` and its message is emitted as a warning while the
other snapshots are unaffected; with `safe = true` the computation agrees
with the unsafe one when nothing fails, and any failure propagates to the
caller. -/
theorem C6_temporal_timeseries_behaviour (G : TN)
    (method : StaticGraph → Except String ℚ) (default : ℚ)
    (hnd : (G.snapshots.map Prod.fst).Nodup) :
    (∃ l, temporal_timeseries G method false default = .ok l ∧
      List.Perm l ((snapshots_outbound G (· + ·)).map
        (fun p => (p.1, failover method default p.2))) ∧
      l.Chain' (fun x y => x.1 < y.1)) ∧
    (∀ p ∈ snapshots_outbound G (· + ·), ∀ e, method p.2 = .error e →
      e ∈ failoverWarnings method (snapshots_outbound G (· + ·))) ∧
    ((∀ p ∈ snapshots_outbound G (· + ·), (method p.2).isOk = true) →
      temporal_timeseries G method true default =
        temporal_timeseries G method false default) ∧
    (∀ p ∈ snapshots_outbound G (· + ·), (method p.2).isOk = false →
      (temporal_timeseries G method true default).isOk = false) := by
  have hlst : temporal_timeseries G method false default =
      .ok (sortLe pairLE ((snapshots_outbound G (· + ·)).map
        (fun p => (p.1, failover method default p.2)))) := rfl
  refine ⟨⟨sortLe pairLE ((snapshots_outbound G (· + ·)).map
      (fun p => (p.1, failover method default p.2))), hlst,
      sortLe_perm pairLE _, ?_⟩, ?_, ?_, ?_⟩
  · have hpw := sortLe_pairwise pairLE_total pairLE_trans
      ((snapshots_outbound G (· + ·)).map
        (fun p => (p.1, failover method default p.2)))
    have hnd2 : ((sortLe pairLE ((snapshots_outbound G (· + ·)).map
        (fun p => (p.1, failover method default p.2)))).map Prod.fst).Nodup := by
      rw [((sortLe_perm pairLE _).map Prod.fst).nodup_iff, map_fst_mk,
        snapshots_outbound_fst]
      exact hnd
    have hne := List.pairwise_map.mp hnd2
    have himp : ∀ {x y : Int × ℚ}, (pairLE x y = true ∧ x.1 ≠ y.1) → x.1 < y.1 := by
      intro x y hab
      rcases hab with ⟨h1, h2⟩
      simp only [pairLE, Bool.or_eq_true, Bool.and_eq_true,
        decide_eq_true_eq] at h1
      rcases h1 with h1 | ⟨h1a, -⟩
      · exact h1
      · exact absurd h1a h2
    exact ((hpw.and hne).imp himp).chain'
  · intro p hp e he
    exact List.mem_filterMap.mpr ⟨p, hp, by rw [he]⟩
  · intro hall
    show (match collectPairs method (snapshots_outbound G (· + ·)) with
      | .error e => Except.error e
      | .ok pairs => Except.ok (sortPairs pairs)) = _
    rw [collectPairs_all_ok method default _ hall]
    rfl
  · intro p hp hbad
    have hc := collectPairs_isOk_false method _ p hp hbad
    show (match collectPairs method (snapshots_outbound G (· + ·)) with
      | .error e => Except.error e
      | .ok pairs => Except.ok (sortPairs pairs)).isOk = false
    cases hcc : collectPairs method (snapshots_outbound G (· + ·)) with
    | error e => rfl
    | ok l => rw [hcc] at hc; simp [Except.isOk, Except.toBool] at hc

/-- Witness for C6: a two-snapshot network where the metric fails on the
empty snapshot and succeeds on the other. -/
theorem C6_temporal_timeseries_behaviour_witness :
    ((buildNetwork [(("X", 0), ("X", 1), 1)]).snapshots.map Prod.fst).Nodup ∧
    ((∃ l, temporal_timeseries (buildNetwork [(("X", 0), ("X", 1), 1)])
        (fun S => if S.numNodes = 0 then .error "empty graph" else .ok 1)
        false 0 = .ok l ∧
      List.Perm l ((snapshots_outbound (buildNetwork [(("X", 0), ("X", 1), 1)])
          (· + ·)).map
        (fun p => (p.1, failover
          (fun S => if S.numNodes = 0 then .error "empty graph" else .ok 1)
          0 p.2))) ∧
      l.Chain' (fun x y => x.1 < y.1)) ∧
    (∀ p ∈ snapshots_outbound (buildNetwork [(("X", 0), ("X", 1), 1)]) (· + ·),
      ∀ e, (fun S => if S.numNodes = 0 then Except.error "empty graph"
          else Except.ok (1 : ℚ)) p.2 = .error e →
        e ∈ failoverWarnings
          (fun S => if S.numNodes = 0 then .error "empty graph" else .ok 1)
          (snapshots_outbound (buildNetwork [(("X", 0), ("X", 1), 1)]) (· + ·))) ∧
    ((∀ p ∈ snapshots_outbound (buildNetwork [(("X", 0), ("X", 1), 1)]) (· + ·),
        ((fun S => if S.numNodes = 0 then Except.error "empty graph"
          else Except.ok (1 : ℚ)) p.2).isOk = true) →
      temporal_timeseries (buildNetwork [(("X", 0), ("X", 1), 1)])
        (fun S => if S.numNodes = 0 then .error "empty graph" else .ok 1) true 0 =
      temporal_timeseries (buildNetwork [(("X", 0), ("X", 1), 1)])
        (fun S => if S.numNodes = 0 then .error "empty graph" else .ok 1)
        false 0) ∧
    (∀ p ∈ snapshots_outbound (buildNetwork [(("X", 0), ("X", 1), 1)]) (· + ·),
      ((fun S => if S.numNodes = 0 then Except.error "empty graph"
          else Except.ok (1 : ℚ)) p.2).isOk = false →
        (temporal_timeseries (buildNetwork [(("X", 0), ("X", 1), 1)])
          (fun S => if S.numNodes = 0 then .error "empty graph" else .ok 1)
          true 0).isOk = false)) :=
  ⟨by decide,
    C6_temporal_timeseries_behaviour (buildNetwork [(("X", 0), ("X", 1), 1)])
      (fun S => if S.numNodes = 0 then .error "empty graph" else .ok 1) 0
      (by decide)⟩

/-- C7: on a temporal network whose outbound snapshots all have at most one
node, `global_reaching_timeseries` is 0 at every time point, and its result
does not depend on the underlying external global-reaching-centrality
function at all (it is never invoked on such degenerate snapshots). -/
theorem C7_global_reaching_degenerate (G : TN) (grc grc2 : StaticGraph → ℚ)
    (h : ∀ p ∈ snapshots_outbound G (· + ·), p.2.numNodes ≤ 1) :
    global_reaching_timeseries G grc = global_reaching_timeseries G grc2 ∧
    (∀ x ∈ global_reaching_timeseries G grc, x.2 = 0) := by
  have hmap : ∀ (g : StaticGraph → ℚ),
      (snapshots_outbound G (· + ·)).map
        (fun p => (p.1, guardedGlobalReachingCentrality g p.2)) =
      (snapshots_outbound G (· + ·)).map (fun p => (p.1, (0 : ℚ))) := by
    intro g
    apply List.map_congr_left
    intro p hp
    have h2 : p.2.numNodes < 2 := by
      have := h p hp
      omega
    simp [guardedGlobalReachingCentrality, h2]
  constructor
  · unfold global_reaching_timeseries
    rw [hmap grc, hmap grc2]
  · intro x hx
    unfold global_reaching_timeseries at hx
    rw [hmap grc] at hx
    have hx2 := (sortLe_perm pairLE _).mem_iff.mp hx
    rcases List.mem_map.mp hx2 with ⟨p, -, rfl⟩
    rfl

/-- Witness for C7: a network whose snapshots have one node (a self-loop
snapshot) and zero nodes, with two different external centrality stubs. -/
theorem C7_global_reaching_degenerate_witness :
    (∀ p ∈ snapshots_outbound (buildNetwork [(("X", 0), ("X", 1), 1)]) (· + ·),
      p.2.numNodes ≤ 1) ∧
    (global_reaching_timeseries (buildNetwork [(("X", 0), ("X", 1), 1)])
        (fun _ => 0) =
      global_reaching_timeseries (buildNetwork [(("X", 0), ("X", 1), 1)])
        (fun _ => 37) ∧
    (∀ x ∈ global_reaching_timeseries (buildNetwork [(("X", 0), ("X", 1), 1)])
        (fun _ => 0), x.2 = 0)) :=
  ⟨by decide,
    C7_global_reaching_degenerate (buildNetwork [(("X", 0), ("X", 1), 1)])
      (fun _ => 0) (fun _ => 37) (by decide)⟩

/-! ### graphml round trip (`write_graphml` / `read_graphml`)

`nx.write_graphml` stringifies each tuple node id with Python `str`;
`read_graphml(path, node_type=parse_tuple)` re-parses every node id with

```python
def parse_tuple(tuple_str):
    loc, t = tuple_str.lstrip("(").rstrip(")").split(",")
    loc = loc.strip("'")
    return loc, int(t)
```

The structured graphml format itself preserves the id strings, the edge
incidence and the integer `weight` attribute exactly, so the file is
modelled as the list of node-id strings plus `(source-id, target-id,
weight)` triples.  `serializeNode` models `str((loc, t))` for facility
strings of printable ASCII free of quotes and backslashes (where `repr`
simply wraps the string in single quotes). -/

def quoteChar : Char := '\''

/-- Decimal digit characters, as printed by Python `str` of an integer. -/
def digitChar (n : Nat) : Char :=
  if n = 0 then '0' else if n = 1 then '1' else if n = 2 then '2'
  else if n = 3 then '3' else if n = 4 then '4' else if n = 5 then '5'
  else if n = 6 then '6' else if n = 7 then '7' else if n = 8 then '8'
  else '9'

def natDigitsAux : Nat → Nat → List Char
  | 0, _ => []
  | fuel + 1, n =>
    if n < 10 then [digitChar n]
    else natDigitsAux fuel (n / 10) ++ [digitChar (n % 10)]

/-- The decimal digit string of a natural number (`str(n)` for `n ≥ 0`). -/
def natDigits (n : Nat) : List Char := natDigitsAux (n + 1) n

/-- `str(t)` for a Python integer: a minus sign followed by the digits when
negative. -/
def intChars (t : Int) : List Char :=
  if t < 0 then '-' :: natDigits (-t).toNat else natDigits t.toNat

def digitVal (c : Char) : Option Nat :=
  if 48 ≤ c.toNat ∧ c.toNat ≤ 57 then some (c.toNat - 48) else none

def parseDigitsAux : List Char → Nat → Option Nat
  | [], acc => some acc
  | c :: cs, acc =>
    match digitVal c with
    | some d => parseDigitsAux cs (acc * 10 + d)
    | none => none

/-- Python `int(s)`: strips surrounding whitespace, accepts an optional
sign, then requires a non-empty digit string. -/
def pyParseInt (s : List Char) : Option Int :=
  let s1 := ((s.dropWhile (fun c => c = ' ')).reverse.dropWhile
      (fun c => c = ' ')).reverse
  if s1 = [] then none
  else if s1.head? = some '-' then
    if s1.drop 1 = [] then none
    else (parseDigitsAux (s1.drop 1) 0).map (fun n => -(n : Int))
  else if s1.head? = some '+' then
    if s1.drop 1 = [] then none
    else (parseDigitsAux (s1.drop 1) 0).map (fun n => (n : Int))
  else (parseDigitsAux s1 0).map (fun n => (n : Int))

/-- `str((loc, t))` for a plain facility string: `('loc', t)`. -/
def serializeNode (n : String × Int) : List Char :=
  '(' :: quoteChar :: (n.1.data ++ quoteChar :: ',' :: ' ' :: (intChars n.2 ++ [')']))

def pyLstripParen (s : List Char) : List Char := s.dropWhile (fun c => c = '(')

def pyRstripParen (s : List Char) : List Char :=
  (s.reverse.dropWhile (fun c => c = ')')).reverse

def pyStripQuote (s : List Char) : List Char :=
  ((s.dropWhile (fun c => c = quoteChar)).reverse.dropWhile
    (fun c => c = quoteChar)).reverse

/-- Python `str.split(",")`. -/
def splitOnComma : List Char → List (List Char)
  | [] => [[]]
  | c :: cs =>
    if c = ',' then [] :: splitOnComma cs
    else
      match splitOnComma cs with
      | [] => [[c]]
      | g :: gs => (c :: g) :: gs

/-- The `parse_tuple` node-id parser of `read_graphml`; the unpacking
`loc, t = ...` fails unless the split yields exactly two parts, and `int`
fails on a malformed number — both modelled as `none`. -/
def parse_tuple (s : List Char) : Option (String × Int) :=
  match splitOnComma (pyRstripParen (pyLstripParen s)) with
  | [locS, tS] =>
    match pyParseInt tS with
    | some t => some (⟨pyStripQuote locS⟩, t)
    | none => none
  | _ => none

structure GraphmlFile where
  nodeIds : List (List Char)
  edgeRecs : List (List Char × List Char × Int)
deriving DecidableEq

def TemporalNetwork.write_graphml (G : TN) : GraphmlFile :=
  ⟨G.nodes.map serializeNode,
    G.edges.map (fun e => (serializeNode e.1, serializeNode e.2.1, e.2.2))⟩

/-- `from_timenode_projection`: copy the parsed graph's nodes and edges,
then register both endpoints of every edge in the two indices. -/
def from_timenode_projection (nodes : List (String × Int))
    (edges : List ((String × Int) × (String × Int) × Int)) : TN :=
  { nodes := nodes
    edges := edges
    snapshots := edges.foldl
      (fun d e => dictAdd (dictAdd d e.1.2 e.1.1) e.2.1.2 e.2.1.1) []
    present := edges.foldl
      (fun d e => dictAdd (dictAdd d e.1.1 e.1.2) e.2.1.1 e.2.1.2) [] }

def parseNodes : List (List Char) → Option (List (String × Int))
  | [] => some []
  | s :: rest =>
    match parse_tuple s with
    | some n =>
      match parseNodes rest with
      | some ns => some (n :: ns)
      | none => none
    | none => none

def parseEdges :
    List (List Char × List Char × Int) →
      Option (List ((String × Int) × (String × Int) × Int))
  | [] => some []
  | r :: rest =>
    match parse_tuple r.1, parse_tuple r.2.1 with
    | some u, some v =>
      match parseEdges rest with
      | some es => some ((u, v, r.2.2) :: es)
      | none => none
    | _, _ => none

def TemporalNetwork.read_graphml (f : GraphmlFile) : Option TN :=
  match parseNodes f.nodeIds, parseEdges f.edgeRecs with
  | some ns, some es => some (from_timenode_projection ns es)
  | _, _ => none

/-- A facility name whose Python `repr` is plainly quote-wrapped and whose
round trip through `parse_tuple` is undisturbed: printable ASCII, no comma,
no quotes, no backslash. -/
def plainLoc (s : String) : Prop :=
  ∀ c ∈ s.data, ¬ c = ',' ∧ ¬ c = quoteChar ∧ ¬ c = '"' ∧ ¬ c = '\\' ∧
    32 ≤ c.toNat ∧ c.toNat ≤ 126

instance plainLoc.instDecidable (s : String) : Decidable (plainLoc s) := by
  unfold plainLoc
  infer_instance

/-! #### Digit-string lemmas -/

theorem digitVal_digitChar : ∀ n < 10, digitVal (digitChar n) = some n := by
  decide

theorem digitChar_range : ∀ n < 10,
    48 ≤ (digitChar n).toNat ∧ (digitChar n).toNat ≤ 57 := by
  decide

theorem natDigitsAux_digits : ∀ (fuel n : Nat), ∀ c ∈ natDigitsAux fuel n,
    48 ≤ c.toNat ∧ c.toNat ≤ 57 := by
  intro fuel
  induction fuel with
  | zero => intro n c hc; simp [natDigitsAux] at hc
  | succ fuel ih =>
    intro n c hc
    by_cases h10 : n < 10
    · simp only [natDigitsAux, if_pos h10, List.mem_singleton] at hc
      subst hc
      exact digitChar_range n h10
    · simp only [natDigitsAux, if_neg h10, List.mem_append,
        List.mem_singleton] at hc
      rcases hc with hc | hc
      · exact ih (n / 10) c hc
      · subst hc
        exact digitChar_range (n % 10) (Nat.mod_lt _ (by omega))

theorem natDigits_digits (n : Nat) : ∀ c ∈ natDigits n,
    48 ≤ c.toNat ∧ c.toNat ≤ 57 :=
  natDigitsAux_digits (n + 1) n

theorem natDigitsAux_ne_nil (fuel n : Nat) (h : 0 < fuel) :
    natDigitsAux fuel n ≠ [] := by
  cases fuel with
  | zero => omega
  | succ fuel =>
    by_cases h10 : n < 10
    · simp [natDigitsAux, h10]
    · simp [natDigitsAux, h10]

theorem natDigits_ne_nil (n : Nat) : natDigits n ≠ [] :=
  natDigitsAux_ne_nil (n + 1) n (by omega)

theorem parseDigitsAux_append_digit (xs : List Char) (c : Char) :
    ∀ (acc : Nat), parseDigitsAux (xs ++ [c]) acc =
      match parseDigitsAux xs acc, digitVal c with
      | some m, some d => some (m * 10 + d)
      | _, _ => none := by
  induction xs with
  | nil =>
    intro acc
    cases hdv : digitVal c with
    | some d => simp [parseDigitsAux, hdv]
    | none => simp [parseDigitsAux, hdv]
  | cons x xs ih =>
    intro acc
    cases hx : digitVal x with
    | some d => simp [parseDigitsAux, hx, ih]
    | none => simp [parseDigitsAux, hx]

theorem natDigitsAux_parse : ∀ (fuel n acc : Nat), n ≤ fuel →
    parseDigitsAux (natDigitsAux fuel n) acc =
      some (acc * 10 ^ (natDigitsAux fuel n).length + n) := by
  intro fuel
  induction fuel with
  | zero =>
    intro n acc h
    have : n = 0 := by omega
    subst this
    simp [natDigitsAux, parseDigitsAux]
  | succ fuel ih =>
    intro n acc h
    by_cases h10 : n < 10
    · simp only [natDigitsAux, if_pos h10]
      have hd := digitVal_digitChar n h10
      simp [parseDigitsAux, hd]
    · simp only [natDigitsAux, if_neg h10]
      rw [parseDigitsAux_append_digit, ih (n / 10) acc (by omega),
        digitVal_digitChar (n % 10) (Nat.mod_lt _ (by omega))]
      simp only [List.length_append, List.length_singleton]
      congr 1
      rw [pow_succ]
      have hdm := Nat.div_add_mod n 10
      ring_nf
      omega

theorem natDigits_parse (n : Nat) : parseDigitsAux (natDigits n) 0 = some n := by
  have h := natDigitsAux_parse (n + 1) n 0 (by omega)
  simpa using h

theorem dropWhile_of_forall_false {p : Char → Bool} :
    ∀ {l : List Char}, (∀ c ∈ l, p c = false) → l.dropWhile p = l := by
  intro l h
  cases l with
  | nil => rfl
  | cons c cs =>
    rw [List.dropWhile_cons, h c (List.mem_cons_self _ _)]
    simp

theorem intChars_chars (t : Int) : ∀ c ∈ intChars t,
    (48 ≤ c.toNat ∧ c.toNat ≤ 57) ∨ c = '-' := by
  intro c hc
  unfold intChars at hc
  split_ifs at hc
  · rcases List.mem_cons.mp hc with rfl | hc
    · exact Or.inr rfl
    · exact Or.inl (natDigits_digits _ c hc)
  · exact Or.inl (natDigits_digits _ c hc)

theorem intChars_ne_nil (t : Int) : intChars t ≠ [] := by
  unfold intChars
  split_ifs
  · simp
  · exact natDigits_ne_nil _

theorem intChars_reverse_head (t : Int) : ∃ d dtail,
    (intChars t).reverse = d :: dtail ∧ 48 ≤ d.toNat ∧ d.toNat ≤ 57 := by
  unfold intChars
  split_ifs with hneg
  · cases hnat : natDigits (-t).toNat with
    | nil => exact absurd hnat (natDigits_ne_nil _)
    | cons c cs =>
      cases hrev : (c :: cs).reverse with
      | nil => simp at hrev
      | cons d ds =>
        refine ⟨d, ds ++ ['-'], ?_, ?_⟩
        · rw [List.reverse_cons, hrev]
          rfl
        · have hd : d ∈ natDigits (-t).toNat := by
            rw [hnat, ← List.mem_reverse, hrev]
            exact List.mem_cons_self _ _
          exact natDigits_digits _ d hd
  · cases hnat : natDigits t.toNat with
    | nil => exact absurd hnat (natDigits_ne_nil _)
    | cons c cs =>
      cases hrev : (c :: cs).reverse with
      | nil => simp at hrev
      | cons d ds =>
        refine ⟨d, ds, rfl, ?_⟩
        have hd : d ∈ natDigits t.toNat := by
          rw [hnat, ← List.mem_reverse, hrev]
          exact List.mem_cons_self _ _
        exact natDigits_digits _ d hd

theorem pyParseInt_intChars (t : Int) : pyParseInt (' ' :: intChars t) = some t := by
  have hnospace : ∀ c ∈ intChars t, decide (c = ' ') = false := by
    intro c hc
    rcases intChars_chars t c hc with hd | rfl
    · simp only [decide_eq_false_iff_not]
      rintro rfl
      simp at hd
    · decide
  have hstrip1 : (' ' :: intChars t).dropWhile (fun c => c = ' ') = intChars t := by
    rw [List.dropWhile_cons]
    simp only [decide_True, if_true]
    exact dropWhile_of_forall_false hnospace
  have hstrip2 : ((intChars t).reverse.dropWhile (fun c => c = ' ')).reverse =
      intChars t := by
    rw [dropWhile_of_forall_false
      (fun c hc => hnospace c (List.mem_reverse.mp hc)), List.reverse_reverse]
  unfold pyParseInt
  simp only [hstrip1, hstrip2]
  by_cases hneg : t < 0
  · have hic : intChars t = '-' :: natDigits (-t).toNat := by
      unfold intChars
      rw [if_pos hneg]
    have hne : natDigits (-t).toNat ≠ [] := natDigits_ne_nil _
    rw [hic]
    rw [if_neg (by simp), if_pos (by rw [List.head?_cons]), List.drop_one,
      List.tail_cons, if_neg hne, natDigits_parse]
    have htn : ((-t).toNat : Int) = -t := Int.toNat_of_nonneg (by omega)
    simp [htn]
  · have hic : intChars t = natDigits t.toNat := by
      unfold intChars
      rw [if_neg hneg]
    cases hnat : natDigits t.toNat with
    | nil => exact absurd hnat (natDigits_ne_nil _)
    | cons c rest =>
      have hc : 48 ≤ c.toNat ∧ c.toNat ≤ 57 := by
        apply natDigits_digits t.toNat
        rw [hnat]
        exact List.mem_cons_self _ _
      have hcm : ¬ c = '-' := by
        rintro rfl
        simp at hc
      have hcp : ¬ c = '+' := by
        rintro rfl
        simp at hc
      rw [hic, hnat]
      rw [if_neg (by simp), if_neg (by simp [List.head?_cons, hcm]),
        if_neg (by simp [List.head?_cons, hcp]), ← hnat, natDigits_parse]
      have htn : (t.toNat : Int) = t := Int.toNat_of_nonneg (by omega)
      simp [htn]

theorem splitOnComma_no_comma : ∀ {l : List Char}, (∀ c ∈ l, ¬ c = ',') →
    splitOnComma l = [l] := by
  intro l
  induction l with
  | nil => intro _; rfl
  | cons c cs ih =>
    intro h
    have hc := h c (List.mem_cons_self _ _)
    have ih2 := ih (fun x hx => h x (List.mem_cons_of_mem _ hx))
    simp only [splitOnComma, if_neg hc, ih2]

theorem splitOnComma_append (l1 l2 : List Char) (h : ∀ c ∈ l1, ¬ c = ',') :
    splitOnComma (l1 ++ ',' :: l2) = l1 :: splitOnComma l2 := by
  induction l1 with
  | nil => simp [splitOnComma]
  | cons c cs ih =>
    have hc := h c (List.mem_cons_self _ _)
    have ih2 : splitOnComma (cs.append (',' :: l2)) = cs :: splitOnComma l2 :=
      ih (fun x hx => h x (List.mem_cons_of_mem _ hx))
    simp only [List.cons_append, splitOnComma, if_neg hc, ih2]

theorem stripQuote_wrap (d : List Char) (h : ∀ c ∈ d, ¬ c = quoteChar) :
    pyStripQuote (quoteChar :: (d ++ [quoteChar])) = d := by
  unfold pyStripQuote
  rw [List.dropWhile_cons, if_pos (by decide)]
  cases d with
  | nil => decide
  | cons c cs =>
    have hc : decide (c = quoteChar) = false := by
      simp [h c (List.mem_cons_self _ _)]
    rw [List.cons_append, List.dropWhile_cons, hc]
    simp only [Bool.false_eq_true, if_false]
    rw [List.reverse_cons, List.reverse_append]
    have hrev : ([quoteChar].reverse ++ cs.reverse) ++ [c] =
        quoteChar :: (cs.reverse ++ [c]) := by simp
    rw [hrev, List.dropWhile_cons, if_pos (by decide),
      dropWhile_of_forall_false ?hall, List.reverse_append,
      List.reverse_reverse]
    · rfl
    case hall =>
      intro x hx
      rcases List.mem_append.mp hx with hx | hx
      · simp [h x (List.mem_cons_of_mem _ (List.mem_reverse.mp hx))]
      · rw [List.mem_singleton.mp hx]
        simpa using h c (List.mem_cons_self _ _)

/-- Core of the amended C5: a plain facility's node id survives the
`str` / `parse_tuple` round trip. -/
theorem parse_serializeNode (loc : String) (t : Int) (h : plainLoc loc) :
    parse_tuple (serializeNode (loc, t)) = some (loc, t) := by
  have hlstrip : pyLstripParen (serializeNode (loc, t)) =
      quoteChar :: (loc.data ++ quoteChar :: ',' :: ' ' :: (intChars t ++ [')'])) := by
    unfold serializeNode pyLstripParen
    rw [List.dropWhile_cons, if_pos (by decide), List.dropWhile_cons,
      if_neg (by decide)]
  have hX : quoteChar :: (loc.data ++ quoteChar :: ',' :: ' ' ::
      (intChars t ++ [')'])) =
      (quoteChar :: (loc.data ++ quoteChar :: ',' :: ' ' :: intChars t)) ++ [')'] := by
    simp
  obtain ⟨d, dtail, hdt, hd1, hd2⟩ := intChars_reverse_head t
  have hrstrip : pyRstripParen
      ((quoteChar :: (loc.data ++ quoteChar :: ',' :: ' ' :: intChars t)) ++ [')']) =
      quoteChar :: (loc.data ++ quoteChar :: ',' :: ' ' :: intChars t) := by
    unfold pyRstripParen
    rw [List.reverse_append]
    have h1 : ([')'] : List Char).reverse = [')'] := rfl
    rw [h1]
    have h2 : (quoteChar :: (loc.data ++ quoteChar :: ',' :: ' ' ::
        intChars t)).reverse =
        d :: (dtail ++ (' ' :: ',' :: quoteChar :: loc.data.reverse ++ [quoteChar])) := by
      rw [List.reverse_cons]
      rw [show loc.data ++ quoteChar :: ',' :: ' ' :: intChars t =
        (loc.data ++ [quoteChar, ',', ' ']) ++ intChars t by simp]
      rw [List.reverse_append, hdt]
      simp
    rw [h2]
    have hdne : decide (d = ')') = false := by
      simp only [decide_eq_false_iff_not]
      rintro rfl
      have : (')' : Char).toNat = 41 := rfl
      omega
    rw [List.cons_append, List.dropWhile_cons, if_pos (by decide)]
    simp only [List.nil_append]
    rw [List.dropWhile_cons, hdne]
    simp only [Bool.false_eq_true, if_false]
    rw [← h2, List.reverse_reverse]
  have hsplit : quoteChar :: (loc.data ++ quoteChar :: ',' :: ' ' :: intChars t) =
      (quoteChar :: (loc.data ++ [quoteChar])) ++ ',' :: (' ' :: intChars t) := by
    simp
  have hpart1 : ∀ c ∈ quoteChar :: (loc.data ++ [quoteChar]), ¬ c = ',' := by
    intro c hc
    rcases List.mem_cons.mp hc with rfl | hc
    · decide
    · rcases List.mem_append.mp hc with hc | hc
      · exact (h c hc).1
      · rw [List.mem_singleton.mp hc]
        decide
  have hpart2 : ∀ c ∈ (' ' :: intChars t), ¬ c = ',' := by
    intro c hc
    rcases List.mem_cons.mp hc with rfl | hc
    · decide
    · rcases intChars_chars t c hc with hd | rfl
      · rintro rfl
        have : (',' : Char).toNat = 44 := rfl
        omega
      · decide
  unfold parse_tuple
  rw [hlstrip, hX, hrstrip, hsplit, splitOnComma_append _ _ hpart1,
    splitOnComma_no_comma hpart2]
  simp only [pyParseInt_intChars]
  have hquote : pyStripQuote (quoteChar :: (loc.data ++ [quoteChar])) = loc.data :=
    stripQuote_wrap loc.data (fun c hc => (h c hc).2.1)
  simp only [hquote]

theorem parseNodes_serialize (ns : List (String × Int))
    (h : ∀ n ∈ ns, plainLoc n.1) :
    parseNodes (ns.map serializeNode) = some ns := by
  induction ns with
  | nil => rfl
  | cons n rest ih =>
    have hp : parse_tuple (serializeNode n) = some n := by
      have h2 := parse_serializeNode n.1 n.2 (h n (List.mem_cons_self _ _))
      simpa using h2
    simp only [List.map_cons, parseNodes, hp,
      ih (fun x hx => h x (List.mem_cons_of_mem _ hx))]

theorem parseEdges_serialize
    (es : List ((String × Int) × (String × Int) × Int))
    (h : ∀ e ∈ es, plainLoc e.1.1 ∧ plainLoc e.2.1.1) :
    parseEdges (es.map (fun e => (serializeNode e.1, serializeNode e.2.1, e.2.2))) =
      some es := by
  induction es with
  | nil => rfl
  | cons e rest ih =>
    have hu : parse_tuple (serializeNode e.1) = some e.1 := by
      have h2 := parse_serializeNode e.1.1 e.1.2 (h e (List.mem_cons_self _ _)).1
      simpa using h2
    have hv : parse_tuple (serializeNode e.2.1) = some e.2.1 := by
      have h2 := parse_serializeNode e.2.1.1 e.2.1.2 (h e (List.mem_cons_self _ _)).2
      simpa using h2
    simp only [List.map_cons, parseEdges, hu, hv,
      ih (fun x hx => h x (List.mem_cons_of_mem _ hx))]

/-! ### Claim C5 -/

/-- C5 (amended): the graphml round trip reproduces the nodes, edges and
weights exactly for networks whose facility names are plain strings
(printable ASCII, no comma, no quote characters, no backslash); see the
counterexample for why the restriction is necessary. -/
theorem C5_graphml_round_trip_amended (G : TN)
    (hn : ∀ n ∈ G.nodes, plainLoc n.1)
    (he : ∀ e ∈ G.edges, plainLoc e.1.1 ∧ plainLoc e.2.1.1) :
    ∃ G2, TemporalNetwork.read_graphml G.write_graphml = some G2 ∧
      G2.nodes = G.nodes ∧ G2.edges = G.edges := by
  refine ⟨from_timenode_projection G.nodes G.edges, ?_, rfl, rfl⟩
  unfold TemporalNetwork.read_graphml TemporalNetwork.write_graphml
  rw [parseNodes_serialize G.nodes hn, parseEdges_serialize G.edges he]

/-- Witness for the amended C5 at a concrete two-node network. -/
theorem C5_graphml_round_trip_amended_witness :
    (∀ n ∈ (buildNetwork [(("X", 0), ("Y", 3), 2)]).nodes, plainLoc n.1) ∧
    (∀ e ∈ (buildNetwork [(("X", 0), ("Y", 3), 2)]).edges,
      plainLoc e.1.1 ∧ plainLoc e.2.1.1) ∧
    (∃ G2, TemporalNetwork.read_graphml
        (TemporalNetwork.write_graphml (buildNetwork [(("X", 0), ("Y", 3), 2)])) =
          some G2 ∧
      G2.nodes = (buildNetwork [(("X", 0), ("Y", 3), 2)]).nodes ∧
      G2.edges = (buildNetwork [(("X", 0), ("Y", 3), 2)]).edges) :=
  ⟨by decide, by decide,
    C5_graphml_round_trip_amended (buildNetwork [(("X", 0), ("Y", 3), 2)])
      (by decide) (by decide)⟩

/-- Counterexample to C5 as stated: the network with the single edge
`("A,B", 0) → ("C", 1)` has integer node times, yet exporting and
re-importing it fails outright —  `str(("A,B", 0))` splits into three pieces
at the embedded comma, so the tuple unpacking in `parse_tuple` raises
instead of reproducing the node — rather than yielding a graph with the
same nodes, edges and weights. -/
theorem C5_graphml_round_trip_counterexample :
    TemporalNetwork.read_graphml
      (TemporalNetwork.write_graphml (buildNetwork [(("A,B", 0), ("C", 1), 1)])) =
      none := by
  decide

/-! ### Data cleaning (`tempest/cleaner.py`), claim C9 -/

inductive CleanError
  | dataHandling (msg : String)
  | columnNotFound (c : String)
deriving DecidableEq, Repr

/-- The value passed for `delete_errors`.  The annotation declares `bool`,
the error message instructs callers to pass the strings `"record"` or
`"subject"`; under Python truthiness `False` is the only falsy value among
the four. -/
inductive DeleteFlag
  | falseFlag
  | trueFlag
  | recordFlag
  | subjectFlag
deriving DecidableEq, Repr

/-- Resolution of `pl.col(name)` as a string column of the standardised
frame, whose columns are exactly `sID`, `fID`, `Adate`, `Ddate`; any other
name raises `ColumnNotFoundError`. -/
def colStr (name : String) (r : StayRow) : Except CleanError String :=
  if name = "sID" then .ok r.sID
  else if name = "fID" then .ok r.fID
  else .error (.columnNotFound name)

/-- `clean_erroneous_records`: find records with `Adate > Ddate`; raise if
the flag is falsy; `"record"` keeps only the non-erroneous records
(`.is_not()` filter); `"subject"` filters on `pl.col("subject")`, a column
that does not exist on the standardised frame; any other truthy value (such
as the annotated `True`) falls through both `elif` arms to the final
`return database`. -/
def clean_erroneous_records (db : List StayRow) (flag : DeleteFlag) :
    Except CleanError (List StayRow) :=
  let erroneous := db.filter (fun r => decide (r.Ddate < r.Adate))
  if erroneous.isEmpty then .ok db
  else
    match flag with
    | .falseFlag => .error (.dataHandling
        "Please deal with these errors or set argument delete_errors to record or subject.")
    | .recordFlag => .ok (db.filter (fun r => ! decide (r.Ddate < r.Adate)))
    | .subjectFlag =>
      match db.mapM (colStr "subject") with
      | .error e => .error e
      | .ok vals =>
        .ok (((db.zip vals).filter
          (fun rv => ! decide (rv.2 ∈ erroneous.map (fun x => x.sID)))).map Prod.fst)
    | .trueFlag => .ok db

/-- C9 (the code evaluated at the failing inputs): with one erroneous record
(admission 5, discharge 1), `delete_errors=True` — opting in through the
flag exactly as its `bool` annotation and the `clean_database` docstring
describe — silently returns the table with the erroneous record retained,
and `delete_errors="subject"` raises `ColumnNotFoundError` on the
nonexistent column `"subject"` instead of deleting the offending subject's
records.  Only the falsy path (raise) and the `"record"` path behave as the
claim states. -/
theorem C9_clean_erroneous_records_bug :
    clean_erroneous_records [⟨"A", "X", 5, 1⟩] .trueFlag =
      .ok [⟨"A", "X", 5, 1⟩] ∧
    clean_erroneous_records [⟨"A", "X", 5, 1⟩] .subjectFlag =
      .error (.columnNotFound "subject") ∧
    (clean_erroneous_records [⟨"A", "X", 5, 1⟩] .falseFlag).isOk = false ∧
    clean_erroneous_records [⟨"A", "X", 5, 1⟩] .recordFlag = .ok [] :=
  ⟨rfl, rfl, rfl, rfl⟩

/-! ### `from_presence` on a raw frame, claim C8

Column absence and the step guard of `int_ranges` are dynamic properties of
the polars pipeline, so here the frame carries its column-name list
alongside the typed rows, and the pipeline reports the error met first:
`sort(pl.col("Adate"))` resolves `Adate`; the `with_columns` expression
resolves `Ddate` and rejects a zero step (its range kernel runs once per
row, so an empty frame raises nothing); the re-sort resolves `sID`; the
node `select` resolves `fID`.  A negative step is legal for `int_ranges`
(a descending range), and with `Adate ≤ Ddate` it produces an empty list,
which `explode` turns into a row with a null time unit — so the network is
built over `Option Int` times, `none` being polars' null. -/

structure Frame where
  cols : List String
  rows : List StayRow
deriving DecidableEq, Repr

inductive PolarsError
  | columnNotFound (c : String)
  | computeError (msg : String)
deriving DecidableEq, Repr

/-- `pl.int_ranges` for any non-zero step (descending when negative). -/
def intRangeZ (start stop step : Int) : List Int :=
  if 0 < step then intRange start stop step
  else if step < 0 then
    intRangeAux start step ((start - stop + (-step) - 1) / (-step)).toNat
  else []

structure PresenceRowN where
  sID : String
  fID : String
  Adate : Int
  Ddate : Int
  present : Option Int
deriving DecidableEq, Repr

/-- Explosion of one row: an empty `int_ranges` list explodes to a single
null entry. -/
def expandRowN (d : Int) (r : StayRow) : List PresenceRowN :=
  match intRangeZ (Int.fdiv r.Adate d * d) (r.Ddate + 1) d with
  | [] => [⟨r.sID, r.fID, r.Adate, r.Ddate, none⟩]
  | p :: ps => (p :: ps).map (fun q => ⟨r.sID, r.fID, r.Adate, r.Ddate, some q⟩)

/-- Null-first strict order on nullable integers, polars' default ascending
sort placement for nulls. -/
def optLT (a b : Option Int) : Bool :=
  match a, b with
  | none, none => false
  | none, some _ => true
  | some _, none => false
  | some x, some y => decide (x < y)

def presLEN (a b : PresenceRowN) : Bool :=
  strLT a.sID b.sID ||
    (decide (a.sID = b.sID) &&
      (optLT a.present b.present ||
        (decide (a.present = b.present) && decide (a.Adate ≤ b.Adate))))

/-- `(present - prev_present) < return_window` under null propagation: a
null on either side makes the comparison null, which the filter drops. -/
def gapLT (p c : Option Int) (w : Int) : Bool :=
  match p, c with
  | some p2, some c2 => decide (c2 - p2 < w)
  | _, _ => false

def presenceTableN (rows : List StayRow) (d : Int) : List PresenceRowN :=
  let sorted1 := sortLe adateLE rows
  let exploded := sorted1.flatMap (expandRowN d)
  sortLe presLEN exploded

def transitionPairsN (presence : List PresenceRowN) (w : Int) :
    List (PresenceRowN × PresenceRowN) :=
  (presence.zip (presence.drop 1)).filter
    (fun pc => decide (pc.1.sID = pc.2.sID) && gapLT pc.1.present pc.2.present w)

def edgeKeyN (pc : PresenceRowN × PresenceRowN) :
    (String × Option Int) × (String × Option Int) :=
  ((pc.1.fID, pc.1.present), (pc.2.fID, pc.2.present))

def weightedEdgesN (presence : List PresenceRowN) (w : Int) :
    List ((String × Option Int) × (String × Option Int) × Int) :=
  let trans := transitionPairsN presence w
  ((trans.map edgeKeyN).dedup).map
    (fun k => (k.1, k.2, ((trans.countP (fun pc => decide (edgeKeyN pc = k)) : Nat) : Int)))

/-- The successful pipeline over nullable time units, identical in shape to
the integer-time `from_presence`. -/
def buildNetworkN (rows : List StayRow) (d w : Int) :
    TemporalNetwork (Option Int) :=
  let presence := presenceTableN rows d
  let nodeList := (presence.map (fun r => (r.fID, r.present))).dedup
  let G0 : TemporalNetwork (Option Int) :=
    { TemporalNetwork.empty (Option Int) with nodes := nodeList }
  let G1 := (weightedEdgesN presence w).foldl
    (fun G e => G.add_edge e.1 e.2.1 e.2.2) G0
  { G1 with
    snapshots := groupPairs (presence.map (fun r => (r.present, r.fID)))
    present := groupPairs (presence.map (fun r => (r.fID, r.present))) }

def from_presence_dyn (df : Frame) (discretisation : Int) (returnWindow : Int) :
    Except PolarsError (TemporalNetwork (Option Int)) :=
  if "Adate" ∉ df.cols then .error (.columnNotFound "Adate")
  else if "Ddate" ∉ df.cols then .error (.columnNotFound "Ddate")
  else if discretisation = 0 ∧ df.rows ≠ [] then
    .error (.computeError "step must not be zero")
  else if "sID" ∉ df.cols then .error (.columnNotFound "sID")
  else if "fID" ∉ df.cols then .error (.columnNotFound "fID")
  else .ok (buildNetworkN df.rows discretisation returnWindow)

/-- C8 (amended): the builder fails when any required column (`sID`, `fID`,
`Adate`, `Ddate`) is absent, and — with all columns present and a non-empty
table — when the discretisation step is exactly 0; a negative discretisation
is not rejected (see the counterexample). -/
theorem C8_from_presence_schema_errors (df : Frame) (d w : Int) :
    ((¬ ("sID" ∈ df.cols ∧ "fID" ∈ df.cols ∧ "Adate" ∈ df.cols ∧
        "Ddate" ∈ df.cols)) →
      (from_presence_dyn df d w).isOk = false) ∧
    (("sID" ∈ df.cols ∧ "fID" ∈ df.cols ∧ "Adate" ∈ df.cols ∧
        "Ddate" ∈ df.cols) → d = 0 → df.rows ≠ [] →
      (from_presence_dyn df d w).isOk = false) := by
  constructor
  · intro hmiss
    unfold from_presence_dyn
    by_cases h1 : "Adate" ∉ df.cols
    · rw [if_pos h1]
      rfl
    · rw [if_neg h1]
      by_cases h2 : "Ddate" ∉ df.cols
      · rw [if_pos h2]
        rfl
      · rw [if_neg h2]
        by_cases h3 : d = 0 ∧ df.rows ≠ []
        · rw [if_pos h3]
          rfl
        · rw [if_neg h3]
          by_cases h4 : "sID" ∉ df.cols
          · rw [if_pos h4]
            rfl
          · rw [if_neg h4]
            by_cases h5 : "fID" ∉ df.cols
            · rw [if_pos h5]
              rfl
            · push_neg at h1 h2 h4 h5
              exact absurd ⟨h4, h5, h1, h2⟩ hmiss
  · rintro ⟨hs, hf, ha, hd2⟩ rfl hrows
    unfold from_presence_dyn
    rw [if_neg (not_not_intro ha), if_neg (not_not_intro hd2),
      if_pos ⟨rfl, hrows⟩]
    rfl

/-- Witness for the amended C8: a frame missing `sID`, and a frame with all
columns, one row and a zero discretisation. -/
theorem C8_from_presence_schema_errors_witness :
    ((from_presence_dyn ⟨["fID", "Adate", "Ddate"], []⟩ 1 365).isOk = false) ∧
    ((from_presence_dyn ⟨["sID", "fID", "Adate", "Ddate"],
      [⟨"A", "X", 0, 0⟩]⟩ 0 365).isOk = false) :=
  ⟨(C8_from_presence_schema_errors ⟨["fID", "Adate", "Ddate"], []⟩ 1 365).1
      (by decide),
    (C8_from_presence_schema_errors ⟨["sID", "fID", "Adate", "Ddate"],
      [⟨"A", "X", 0, 0⟩]⟩ 0 365).2 (by decide) rfl (by decide)⟩

/-- C8 counterexample: with every required column present and a negative
discretisation of -1 the builder does not fail — `int_ranges` accepts the
negative step and yields an empty range, which explodes into a null time
unit — so it returns a (degenerate) network with the node `("X", null)`
instead of raising on a non-positive discretisation. -/
theorem C8_negative_discretisation_not_rejected :
    (from_presence_dyn ⟨["sID", "fID", "Adate", "Ddate"],
      [⟨"A", "X", 0, 0⟩]⟩ (-1) 365).isOk = true ∧
    ∃ G, from_presence_dyn ⟨["sID", "fID", "Adate", "Ddate"],
      [⟨"A", "X", 0, 0⟩]⟩ (-1) 365 = .ok G ∧ G.nodes = [("X", none)] := by
  refine ⟨by decide, buildNetworkN [⟨"A", "X", 0, 0⟩] (-1) 365, rfl, by decide⟩

/-! ### Overlap resolution, claim C4 -/

/-- Modelled from the spec: the `overlap_fixer` module (`fix_overlaps`,
`num_overlaps`) is imported by `tempest/cleaner.py` but its source file is
not part of the repository snapshot.  Per §4.1: two records overlap iff they
belong to the same subject and their `[admission, discharge)` intervals
intersect. -/
def overlapsB (r s : StayRow) : Bool :=
  decide (r.sID = s.sID) && decide (max r.Adate s.Adate < min r.Ddate s.Ddate)

/-- Modelled from the spec: the exact count of pairwise overlapping
same-subject interval pairs. -/
def num_overlaps : List StayRow → Nat
  | [] => 0
  | r :: rest => rest.countP (fun s => overlapsB r s) + num_overlaps rest

/-- Modelled from the spec: deterministic selection order — subject, then
admission, then discharge (earliest-admission-wins tie-break as §9
recommends). -/
def stayLE (a b : StayRow) : Bool :=
  strLT a.sID b.sID ||
    (decide (a.sID = b.sID) &&
      (decide (a.Adate < b.Adate) ||
        (decide (a.Adate = b.Adate) && decide (a.Ddate ≤ b.Ddate))))

def fixOneOverlapGo : List StayRow → List StayRow
  | [] => []
  | r :: rest =>
    match rest.find? (fun s => overlapsB r s) with
    | some s => { r with Ddate := s.Adate } :: rest
    | none => r :: fixOneOverlapGo rest

/-- Modelled from the spec: resolve one overlap — in admission-sorted order,
take the first overlapping same-subject pair and trim the earlier-starting
record's discharge to the later record's admission. -/
def fixOneOverlap (db : List StayRow) : List StayRow :=
  fixOneOverlapGo (sortLe stayLE db)

/-- Modelled from the spec: iterate overlap fixing up to the iteration cap,
stopping early once `num_overlaps` reaches zero. -/
def fix_overlaps (db : List StayRow) : Nat → List StayRow
  | 0 => db
  | n + 1 => if num_overlaps db = 0 then db else fix_overlaps (fixOneOverlap db) n

/-- `fix_all_overlaps(database, n_iters)` delegates to
`overlap_fixer.fix_overlaps` with the iteration cap (default 100). -/
def fix_all_overlaps (db : List StayRow) (n_iters : Nat) : List StayRow :=
  fix_overlaps db n_iters

/-- C4 (modelled from the spec, the overlap_fixer source being absent from
the snapshot): the same-subject stays P(day 0 – day 5) and Q(day 3 – day 8)
resolve under the trim policy and the default cap of 100 iterations to
P(day 0 – day 3) and Q unchanged, with zero remaining overlaps. -/
theorem C4_overlap_trim_scenario :
    fix_all_overlaps [⟨"s", "P", 0, 5⟩, ⟨"s", "Q", 3, 8⟩] 100 =
      [⟨"s", "P", 0, 3⟩, ⟨"s", "Q", 3, 8⟩] ∧
    num_overlaps (fix_all_overlaps [⟨"s", "P", 0, 5⟩, ⟨"s", "Q", 3, 8⟩] 100) = 0 := by
  decide

end Hospinet
